import Mathlib

/-!
Verification of the fleet-dashboard reconciliation-and-decision engine
(the function run_logic and its helpers in app.py) against its
specification.

Tables are embedded as a list of column names plus rows of cells. Numeric
cells carry exact rationals, standing in for the floats of the original;
none of the verified properties depend on binary rounding. Missing values
(NaN) are a distinguished null cell, and the column accesses that can
raise a KeyError in the original return an Except value naming the
missing column.
-/

/-- A cell of a table: a string, a number, or a missing value (NaN). -/
inductive Val where
  | str : String → Val
  | num : ℚ → Val
  | null : Val
deriving DecidableEq, Repr

/-- String cast of a cell, as the astype conversion to string produces it for
the values the pipeline feeds it: identifiers are strings, integral numbers
print bare. -/
def Val.toStr : Val → String
  | .str s => s
  | .num q => if q.den = 1 then toString q.num else toString q
  | .null => "nan"

/-- Numeric reading of a cell; none models NaN under the coercing numeric
conversion. Textual cells are treated as unparseable, which is all the
verified properties ever exercise. -/
def toNumOpt : Val → Option ℚ
  | .num q => some q
  | _ => none

/-- Numeric reading with the zero default of fillna. -/
def toNumD (v : Val) : ℚ := (toNumOpt v).getD 0

/-- Lowercasing, the Python lower call on the ASCII column names the heuristics
compare; written as a character map over the underlying list so that concrete
instances evaluate. -/
def lowerStr (s : String) : String := ⟨s.data.map Char.toLower⟩

/-- Is the first list a front segment of the second. -/
def isPfxOf : List Char → List Char → Bool
  | [], _ => true
  | _ :: _, [] => false
  | p :: ps, c :: cs => p == c && isPfxOf ps cs

/-- Does the pattern occur inside the list. -/
def hasInfix (pat : List Char) : List Char → Bool
  | [] => pat.isEmpty
  | c :: cs => isPfxOf pat (c :: cs) || hasInfix pat cs

/-- Substring test: the Python membership test on strings. -/
def containsStr (s pat : String) : Bool := hasInfix pat.data s.data

/-- Remove the pattern from the front of the list, if it is there. -/
def chopFront : List Char → List Char → Option (List Char)
  | [], s => some s
  | _ :: _, [] => none
  | p :: ps, c :: cs => if p = c then chopFront ps cs else none

/-- Fuelled worker for the replace-all pass; the callers supply the length of
the subject as fuel, which always suffices since every step consumes at least
one character of a non-empty pattern match or of the subject. -/
def replaceAllGo (pat repl : List Char) : Nat → List Char → List Char
  | _, [] => []
  | 0, s => s
  | fuel + 1, c :: cs =>
    match chopFront pat (c :: cs) with
    | some rest => repl ++ replaceAllGo pat repl fuel rest
    | none => c :: replaceAllGo pat repl fuel cs

/-- The Python replace call: every non-overlapping occurrence of the pattern,
left to right. The empty pattern (never passed by this code) leaves the
subject unchanged. -/
def replaceStr (s pat repl : String) : String :=
  if pat.data.isEmpty then s else ⟨replaceAllGo pat.data repl.data s.data.length s.data⟩

/-- The Python strip call: whitespace removed from both ends. -/
def trimStr (s : String) : String :=
  ⟨((s.data.dropWhile Char.isWhitespace).reverse.dropWhile Char.isWhitespace).reverse⟩

/-- Index of the first column with the given name (pandas column lookup). -/
def colIdxAux : List String → String → Option Nat
  | [], _ => none
  | c :: cs, d => if c = d then some 0 else (colIdxAux cs d).map (· + 1)

/-- An in-memory table: named columns and rows of cells. -/
structure DF where
  cols : List String
  rows : List (List Val)
deriving DecidableEq, Repr

/-- Cell of a row at a column position; positions beyond the row read as null. -/
def cellAt (r : List Val) (i : Nat) : Val := r.getD i Val.null

/-- The emptiness test of a frame: no rows or no columns. -/
def DF.isEmpty (df : DF) : Bool := df.rows.isEmpty || df.cols.isEmpty

def DF.hasCol (df : DF) (c : String) : Bool := df.cols.contains c

def DF.colIdx (df : DF) (c : String) : Option Nat := colIdxAux df.cols c

/-- The values of a named column, top to bottom; empty if the column is absent. -/
def DF.getColVals (df : DF) (c : String) : List Val :=
  match df.colIdx c with
  | some i => df.rows.map (fun r => cellAt r i)
  | none => []

/-- Column assignment: overwrite an existing column in place, or append a new
column on the right. -/
def DF.setCol (df : DF) (c : String) (vs : List Val) : DF :=
  match df.colIdx c with
  | some i => ⟨df.cols, List.zipWith (fun r v => r.set i v) df.rows vs⟩
  | none => ⟨df.cols ++ [c], List.zipWith (fun r v => r ++ [v]) df.rows vs⟩

/-- Column projection followed by copy. -/
def DF.select (df : DF) (cs : List String) : DF :=
  ⟨cs, df.rows.map (fun r => cs.map (fun c =>
    match df.colIdx c with
    | some i => cellAt r i
    | none => Val.null))⟩

/-- Replace a missing cell by numeric zero. -/
def fillVal : Val → Val
  | .null => .num 0
  | v => v

/-- The fillna call with argument zero, applied to the whole frame. -/
def DF.fillna0 (df : DF) : DF := ⟨df.cols, df.rows.map (fun r => r.map fillVal)⟩

/-- Every row has exactly one cell per column; true of every real frame. -/
def DF.Wf (df : DF) : Prop := ∀ r ∈ df.rows, r.length = df.cols.length

instance (df : DF) : Decidable df.Wf :=
  inferInstanceAs (Decidable (∀ r ∈ df.rows, r.length = df.cols.length))

def emptyDF : DF := ⟨[], []⟩

/-- Worker for first-occurrence deduplication, carrying the values already
emitted. -/
def dedupFirstGo (seen : List Val) : List Val → List Val
  | [] => []
  | v :: vs =>
    if seen.contains v then dedupFirstGo seen vs
    else v :: dedupFirstGo (v :: seen) vs

/-- First-occurrence deduplication: the distinct group keys of a groupby, in
order of first appearance. The callers join on these keys, so the order the
original sorts them in is immaterial. -/
def dedupFirst (l : List Val) : List Val := dedupFirstGo [] l

inductive AggKind where
  | sum
  | max
deriving DecidableEq, Repr

/-- Reduce the values of one group: the NaN-skipping groupby sum or max. -/
def aggApply : AggKind → List Val → Val
  | .sum, vs => .num ((vs.filterMap toNumOpt).foldl (· + ·) 0)
  | .max, vs =>
    match vs.filterMap toNumOpt with
    | [] => .null
    | q :: qs => .num (qs.foldl Max.max q)

/-- One row per distinct key with the reduced value column: the groupby,
aggregate, reset_index, rename chain of the source. -/
def groupAgg (df : DF) (key valCol outName : String) (k : AggKind) : DF :=
  let ki := (df.colIdx key).getD 0
  let vi := (df.colIdx valCol).getD 0
  ⟨[key, outName],
    (dedupFirst (df.rows.map (fun r => cellAt r ki))).map (fun g =>
      [g, aggApply k ((df.rows.filter (fun r => cellAt r ki = g)).map (fun r => cellAt r vi))])⟩

/-- Positions of the non-key columns of the right table of a join. -/
def nonKeyIdx (r : DF) (ri : Nat) : List Nat :=
  (List.range r.cols.length).filter (fun j => j ≠ ri)

/-- Left join on a shared key column: all left rows kept in order, the non-key
right cells appended, null where unmatched. Suffixing of colliding column
names is not modelled; the one caller never produces a collision, since the
left columns are drawn from a fixed set disjoint from the right output names. -/
def DF.mergeLeft (l r : DF) (key : String) : DF :=
  let li := (l.colIdx key).getD 0
  let ri := (r.colIdx key).getD 0
  let js := nonKeyIdx r ri
  ⟨l.cols ++ js.map (fun j => r.cols.getD j ""),
    l.rows.flatMap (fun lr =>
      let ms := r.rows.filter (fun rr => cellAt rr ri = cellAt lr li)
      if ms.isEmpty then [lr ++ js.map (fun _ => Val.null)]
      else ms.map (fun rr => lr ++ js.map (fun j => cellAt rr j)))⟩

/-- The id normalization applied to each raw identifier cell in
load_initial_data: string cast, removal of the literal token SPOT-, then
whitespace trim. -/
def clean_id_val (v : Val) : Val := .str (trimStr (replaceStr v.toStr "SPOT-" ""))

/-- The heuristic identifier-column predicate of load_initial_data; by Python
operator precedence it reads: contains unit, or contains truck while not
containing price. -/
def idColPred (c : String) : Bool :=
  containsStr (lowerStr c) "unit"
    || (containsStr (lowerStr c) "truck" && !containsStr (lowerStr c) "price")

/-- The id standardization block of load_initial_data, lines 71 to 74: find an
identifier column and project the canonical clean_id column from it. -/
def addCleanId (df : DF) : DF :=
  match df.cols.find? idColPred with
  | some idc => df.setCol "clean_id" ((df.getColVals idc).map clean_id_val)
  | none => df

/-- The four tables the engine consumes. The fifth loaded table (market) is
never read by the engine and is omitted. -/
structure Sources where
  finance : DF
  repairs : DF
  odometer : DF
  distance : DF
deriving DecidableEq, Repr

/-- Columns matching the payment-per-month heuristic of line 100. -/
def payColPred (c : String) : Bool :=
  containsStr (lowerStr c) "pay" && containsStr (lowerStr c) "month"

/-- Lines 100 to 104: estimate the payoff balance on the finance table itself.
Note the assignment writes a new column onto the input finance frame. -/
def addPayoff (fin : DF) : DF :=
  match fin.cols.find? payColPred with
  | some pc =>
    fin.setCol "payoff_balance" ((fin.getColVals pc).map (fun v => .num (toNumD v * 12)))
  | none => fin.setCol "payoff_balance" (List.replicate fin.rows.length (.num 0))

/-- One pass of the metadata loop of lines 109 to 111: copy the first
matching finance column onto the master, or fill with the N/A constant. -/
def addMetaCol (fin m : DF) (c : String) : DF :=
  match fin.cols.find? (fun x => containsStr (lowerStr x) c) with
  | some col => m.setCol c (fin.getColVals col)
  | none => m.setCol c (List.replicate m.rows.length (.str "N/A"))

/-- Lines 106 to 111: the finance-derived base of the master table. -/
def buildBase (fin : DF) : DF :=
  addMetaCol fin (addMetaCol fin (addMetaCol fin
    (fin.select ["clean_id", "payoff_balance"]) "make") "model") "year"

/-- Lines 113 to 132, the shared shape of the three source blocks: aggregate
one source and left-join it onto the master, skipping a source that is empty
or lacks a canonical key or a recognizable value column. -/
def mergeSource (master src : DF) (hint outName : String) (k : AggKind) : DF :=
  if !src.isEmpty && src.hasCol "clean_id" then
    match src.cols.find? (fun c => containsStr (lowerStr c) hint) with
    | some vc => master.mergeLeft (groupAgg src "clean_id" vc outName k) "clean_id"
    | none => master
  else master

/-- Two-decimal rendering used in the High CPM reasoning tag. It rounds the
exact rational; the tie-breaking of binary floats differs at unrepresentable
ties, which no property proved here exercises. -/
def fmt2 (q : ℚ) : String :=
  let c : Int := Int.fdiv (q * 100 + 1 / 2).num (q * 100 + 1 / 2).den
  let a := c.natAbs
  let frac := a % 100
  (if c < 0 then "-" else "") ++ toString (a / 100) ++ "." ++
    (if frac < 10 then "0" else "") ++ toString frac

/-- Lines 148 to 163: the per-row recommendation, returning the Action and the
Reasoning string. -/
def get_rec (odometer cpm net_equity recent_miles : ℚ) : String × String :=
  let reasons :=
    (if odometer > 500000 then ["High Miles"] else []) ++
    (if cpm > 0.15 then ["High CPM ($" ++ fmt2 cpm ++ ")"] else []) ++
    (if net_equity > 0 then ["Pos Equity"] else ["Neg Equity"])
  let action :=
    if (odometer > 500000 ∨ cpm > 0.15) ∧ net_equity > 0 then "SELL"
    else if cpm < 0.12 ∧ recent_miles > 2000 then "KEEP"
    else if recent_miles < 1000 ∧ net_equity < 0 then "INSPECT"
    else "INSPECT"
  (action, String.intercalate ", " reasons)

/-- Read a numeric cell of a row by column name; used by the per-row apply,
where the prior stages guarantee the cell is numeric. -/
def numAt (df : DF) (r : List Val) (c : String) : ℚ :=
  toNumD (cellAt r ((df.colIdx c).getD 0))

/-- The replace of zero by one guarding the cost-per-mile division. -/
def replace0 (v : Val) : Val := if v = .num 0 then .num 1 else v

def valMul : Val → Val → Val
  | .num a, .num b => .num (a * b)
  | _, _ => .null

def valSub : Val → Val → Val
  | .num a, .num b => .num (a - b)
  | _, _ => .null

def valDiv : Val → Val → Val
  | .num a, .num b => .num (a / b)
  | _, _ => .null

/-- The clip with floor 10000 of line 139. -/
def clipLow (v : Val) : Val :=
  match v with
  | .num a => .num (Max.max 10000 a)
  | v => v

/-- Lines 138 to 142: resale estimate, salvage clip, and equity, written as
three column assignments on the master (the odometer column position is
resolved by the caller). -/
def estResaleCols (m : DF) (oi : Nat) : DF :=
  let m1 := m.setCol "est_resale"
    (m.rows.map (fun r => valSub (.num 65000) (valMul (cellAt r oi) (.num (5 / 100)))))
  let m2 := m1.setCol "est_resale" ((m1.getColVals "est_resale").map clipLow)
  m2.setCol "net_equity"
    (List.zipWith valSub (m2.getColVals "est_resale") (m2.getColVals "payoff_balance"))

/-- Lines 144 to 167: cost per mile and the per-row recommendation apply
(the total_repairs and recent_miles positions are resolved by the caller). -/
def classifyCols (m : DF) (ti ri : Nat) : DF :=
  let m4 := m.setCol "cpm"
    (m.rows.map (fun r => valDiv (cellAt r ti) (replace0 (cellAt r ri))))
  let recs := m4.rows.map (fun r =>
    get_rec (numAt m4 r "odometer") (numAt m4 r "cpm")
      (numAt m4 r "net_equity") (numAt m4 r "recent_miles"))
  (m4.setCol "Action" (recs.map (fun p => Val.str p.1))).setCol "Reasoning"
    (recs.map (fun p => Val.str p.2))

/-- Lines 136 to 167: derived metrics and classification. A lookup of a column
the merges never added raises a KeyError in the original; here it returns an
error value naming that column. -/
def computeCols (m : DF) : Except String DF :=
  match m.colIdx "odometer" with
  | none => .error "odometer"
  | some oi =>
    match (estResaleCols m oi).colIdx "total_repairs",
        (estResaleCols m oi).colIdx "recent_miles" with
    | none, _ => .error "total_repairs"
    | some _, none => .error "recent_miles"
    | some ti, some ri => .ok (classifyCols (estResaleCols m oi) ti ri)

/-- Lines 106 to 134 of the main branch: the base copied out of the finance
table, the three aggregated merges in order, and the zero fill. -/
def masterOf (dfs : Sources) : DF :=
  DF.fillna0 (mergeSource (mergeSource (mergeSource
    (buildBase (addPayoff dfs.finance)) dfs.repairs "amount" "total_repairs" .sum)
    dfs.odometer "odo" "odometer" .max)
    dfs.distance "dist" "recent_miles" .sum)

/-- The calculation engine, run_logic of lines 89 to 169. Returns the decision
table, or the KeyError it raises, together with the source tables as the call
leaves them: the payoff-balance estimate is written onto the finance table
itself before the base is copied out of it. -/
def run_logic (dfs : Sources) : Except String DF × Sources :=
  if dfs.finance.isEmpty || !dfs.finance.hasCol "clean_id" then (.ok emptyDF, dfs)
  else (computeCols (masterOf dfs), { dfs with finance := addPayoff dfs.finance })

/-- The simpler classifier of claim C10, written out from the words of the
claim: Rule A, else Rule B, else INSPECT, with no separate Rule C branch. -/
def get_rec_simple (odometer cpm net_equity recent_miles : ℚ) : String :=
  if (odometer > 500000 ∨ cpm > 0.15) ∧ net_equity > 0 then "SELL"
  else if cpm < 0.12 ∧ recent_miles > 2000 then "KEEP"
  else "INSPECT"

/-- A numeric-or-missing cell: the only shapes an aggregated source column can
take before the zero fill. -/
def numOrNull (v : Val) : Prop := v = Val.null ∨ ∃ q, v = Val.num q

/-- Whether a cell is textual. -/
def Val.isStr : Val → Bool
  | .str _ => true
  | _ => false

/-- Decidable equality of engine results, so concrete runs can be checked by
evaluation. -/
def exceptDecEq : DecidableEq (Except String DF)
  | .ok a, .ok b =>
    match decEq a b with
    | isTrue h => isTrue (h ▸ rfl)
    | isFalse h => isFalse fun hh => h (Except.ok.inj hh)
  | .error a, .error b =>
    match decEq a b with
    | isTrue h => isTrue (h ▸ rfl)
    | isFalse h => isFalse fun hh => h (Except.error.inj hh)
  | .ok _, .error _ => isFalse fun hh => Except.noConfusion hh
  | .error _, .ok _ => isFalse fun hh => Except.noConfusion hh

instance : DecidableEq (Except String DF) := exceptDecEq

/-! ### Example tables

Concrete instances used to witness the general theorems and to evaluate the
engine at the inputs the claims single out. All are tables as the loader
would hand them to the engine (the canonical key column already projected),
except the c8 tables, which are raw and run through the id standardization. -/

def exFin : DF := ⟨["clean_id", "paymonth"], [[.str "77", .num 500]]⟩

def exRep : DF :=
  ⟨["clean_id", "amount"], [[.str "77", .num 4000], [.str "77", .num 5000]]⟩

def exOdo : DF := ⟨["clean_id", "odom"], [[.str "77", .num 520000]]⟩

def exDist : DF := ⟨["clean_id", "distance"], [[.str "77", .num 2500]]⟩

def exInput : Sources := ⟨exFin, exRep, exOdo, exDist⟩

/-- A roster with one vehicle and all three non-finance sources missing: the
configuration the spec says must degrade to zero-valued derived fields. -/
def c1Input : Sources := ⟨⟨["clean_id"], [[.str "1001"]]⟩, emptyDF, emptyDF, emptyDF⟩

/-- Input for the frame-effect counterexample: a minimal finance roster. -/
def cexC6src : Sources := ⟨⟨["clean_id"], [[.str "9"]]⟩, emptyDF, emptyDF, emptyDF⟩

/-- A finance table with no canonical key column. -/
def c9Input : Sources :=
  ⟨⟨["truckname"], [[.str "a"]]⟩, emptyDF, emptyDF, emptyDF⟩

def c8finRaw : DF := ⟨["unit_id", "paymonth"], [[.str "SPOT-1001", .num 100]]⟩

def c8repRaw : DF :=
  ⟨["truck", "amount"], [[.str " 1001 ", .num 30], [.str "SPOT-1001", .num 20]]⟩

def c8odoRaw : DF := ⟨["unit", "odom"], [[.str " 1001 ", .num 1000]]⟩

def c8distRaw : DF := ⟨["unit", "dist"], [[.str "SPOT-1001", .num 10]]⟩

def c8Input : Sources :=
  ⟨addCleanId c8finRaw, addCleanId c8repRaw, addCleanId c8odoRaw, addCleanId c8distRaw⟩

/-- The decision table the engine produces on the example input. -/
def exMaster : DF :=
  ⟨["clean_id", "payoff_balance", "make", "model", "year", "total_repairs", "odometer",
    "recent_miles", "est_resale", "net_equity", "cpm", "Action", "Reasoning"],
   [[.str "77", .num 6000, .str "N/A", .str "N/A", .str "N/A", .num 9000, .num 520000,
     .num 2500, .num 39000, .num 33000, .num (18 / 5), .str "SELL",
     .str "High Miles, High CPM ($3.60), Pos Equity"]]⟩

/-- The source tables as the engine leaves them on the example input: the
finance table has gained its payoff-balance column. -/
def exPost : Sources :=
  ⟨⟨["clean_id", "paymonth", "payoff_balance"], [[.str "77", .num 500, .num 6000]]⟩,
   exRep, exOdo, exDist⟩

/-- The decision table produced from the raw c8 tables, empty on error. -/
def c8Out : DF :=
  match (run_logic c8Input).1 with
  | .ok d => d
  | .error _ => emptyDF

/-! ### Generic list lemmas -/

theorem mem_zipWith {α β γ : Type _} {f : α → β → γ} {x : γ} :
    ∀ {l1 : List α} {l2 : List β}, x ∈ List.zipWith f l1 l2 →
      ∃ a ∈ l1, ∃ b ∈ l2, x = f a b := by
  intro l1
  induction l1 with
  | nil => intro l2 h; simp at h
  | cons a as ih =>
    intro l2 h
    cases l2 with
    | nil => simp at h
    | cons b bs =>
      simp only [List.zipWith_cons_cons, List.mem_cons] at h
      rcases h with h | h
      · exact ⟨a, by simp, b, by simp, h⟩
      · rcases ih h with ⟨a', ha, b', hb, hx⟩
        exact ⟨a', by simp [ha], b', by simp [hb], hx⟩

theorem map_zipWith_cancel {α β γ : Type _} (f : α → β → γ) (g : γ → β) :
    ∀ {l1 : List α} {l2 : List β}, (∀ a ∈ l1, ∀ b ∈ l2, g (f a b) = b) →
      l2.length = l1.length → (List.zipWith f l1 l2).map g = l2 := by
  intro l1
  induction l1 with
  | nil => intro l2 _ hlen; cases l2 <;> simp_all
  | cons a as ih =>
    intro l2 h hlen
    cases l2 with
    | nil => simp at hlen
    | cons b bs =>
      simp only [List.zipWith_cons_cons, List.map_cons, List.cons.injEq]
      refine ⟨h a (by simp) b (by simp), ?_⟩
      exact ih (fun x hx y hy => h x (by simp [hx]) y (by simp [hy])) (by simpa using hlen)

theorem map_zipWith_other {α β γ δ : Type _} (f : α → β → γ) (g : γ → δ) (g' : α → δ) :
    ∀ {l1 : List α} {l2 : List β}, (∀ a ∈ l1, ∀ b ∈ l2, g (f a b) = g' a) →
      l2.length = l1.length → (List.zipWith f l1 l2).map g = l1.map g' := by
  intro l1
  induction l1 with
  | nil => intro l2 _ hlen; simp
  | cons a as ih =>
    intro l2 h hlen
    cases l2 with
    | nil => simp at hlen
    | cons b bs =>
      simp only [List.zipWith_cons_cons, List.map_cons, List.cons.injEq]
      refine ⟨h a (by simp) b (by simp), ?_⟩
      exact ih (fun x hx y hy => h x (by simp [hx]) y (by simp [hy])) (by simpa using hlen)

theorem map_two_cols {α β γ δ : Type _} (f : β → γ → δ) (g : α → β) (h : α → γ) :
    ∀ (l : List α), l.map (fun x => f (g x) (h x)) = List.zipWith f (l.map g) (l.map h) := by
  intro l
  induction l with
  | nil => rfl
  | cons a as ih =>
    simp only [List.map_cons, List.zipWith_cons_cons, List.cons.injEq, true_and]
    exact ih

theorem getD_map_of_lt {α β : Type _} (f : α → β) (d : β) (d' : α) :
    ∀ (l : List α) (i : Nat), i < l.length → (l.map f).getD i d = f (l.getD i d') := by
  intro l
  induction l with
  | nil => intro i h; simp at h
  | cons a as ih =>
    intro i h
    cases i with
    | zero => rfl
    | succ j => exact ih j (by simpa using h)

theorem getD_zipWith_of_lt {α β γ : Type _} (f : α → β → γ) (d : γ) (da : α) (db : β) :
    ∀ (l1 : List α) (l2 : List β) (i : Nat), i < l1.length → i < l2.length →
      (List.zipWith f l1 l2).getD i d = f (l1.getD i da) (l2.getD i db) := by
  intro l1
  induction l1 with
  | nil => intro l2 i h; simp at h
  | cons a as ih =>
    intro l2 i h1 h2
    cases l2 with
    | nil => simp at h2
    | cons b bs =>
      cases i with
      | zero => rfl
      | succ j => exact ih bs j (by simpa using h1) (by simpa using h2)

theorem getD_mem_of_lt {α : Type _} (d : α) :
    ∀ (l : List α) (i : Nat), i < l.length → l.getD i d ∈ l := by
  intro l
  induction l with
  | nil => intro i h; simp at h
  | cons a as ih =>
    intro i h
    cases i with
    | zero => simp [List.getD]
    | succ j => exact List.mem_cons_of_mem _ (ih j (by simpa using h))

theorem flatMap_eq_map {α β : Type _} {f : α → List β} {g : α → β} :
    ∀ {l : List α}, (∀ a ∈ l, f a = [g a]) → l.flatMap f = l.map g := by
  intro l
  induction l with
  | nil => intro _; rfl
  | cons a as ih =>
    intro h
    simp only [List.flatMap_cons, List.map_cons, h a (by simp)]
    simp only [List.singleton_append, List.cons.injEq, true_and]
    exact ih (fun x hx => h x (by simp [hx]))

theorem filter_map_eq_length_le_one {α β : Type _} [DecidableEq β] (f : α → β) :
    ∀ {l : List α}, (l.map f).Nodup → ∀ (x : β),
      (l.filter (fun a => f a = x)).length ≤ 1 := by
  intro l
  induction l with
  | nil => intro _ x; simp
  | cons a as ih =>
    intro h x
    simp only [List.map_cons, List.nodup_cons] at h
    by_cases hax : f a = x
    · have hnil : as.filter (fun b => f b = x) = [] := by
        rw [List.filter_eq_nil_iff]
        intro b hb hbx
        exact h.1 (by
          rw [List.mem_map]
          exact ⟨b, hb, by rw [of_decide_eq_true hbx, hax]⟩)
      simp [List.filter_cons, hax, hnil]
    · simpa [List.filter_cons, hax] using ih h.2 x

/-! ### Column-index lemmas -/

theorem colIdxAux_eq_none {l : List String} {d : String} :
    colIdxAux l d = none ↔ d ∉ l := by
  induction l with
  | nil => simp [colIdxAux]
  | cons c cs ih =>
    by_cases h : c = d
    · simp [colIdxAux, h]
    · constructor
      · intro hn hm
        rcases List.mem_cons.mp hm with h' | h'
        · exact h h'.symm
        · rw [colIdxAux, if_neg h, Option.map_eq_none'] at hn
          exact (ih.mp hn) h'
      · intro hm
        rw [colIdxAux, if_neg h, Option.map_eq_none']
        exact ih.mpr (fun h' => hm (List.mem_cons_of_mem _ h'))

theorem colIdxAux_lt {l : List String} {d : String} :
    ∀ {i : Nat}, colIdxAux l d = some i → i < l.length := by
  induction l with
  | nil => intro i h; simp [colIdxAux] at h
  | cons c cs ih =>
    intro i h
    by_cases hc : c = d
    · rw [colIdxAux, if_pos hc, Option.some.injEq] at h
      subst h
      simp
    · simp only [colIdxAux, if_neg hc, Option.map_eq_some'] at h
      rcases h with ⟨j, hj, rfl⟩
      have := ih hj
      simp only [List.length_cons]
      omega

theorem colIdxAux_getD {l : List String} {d : String} :
    ∀ {i : Nat}, colIdxAux l d = some i → l.getD i "" = d := by
  induction l with
  | nil => intro i h; simp [colIdxAux] at h
  | cons c cs ih =>
    intro i h
    by_cases hc : c = d
    · rw [colIdxAux, if_pos hc, Option.some.injEq] at h
      subst h
      simpa using hc
    · simp only [colIdxAux, if_neg hc, Option.map_eq_some'] at h
      rcases h with ⟨j, hj, rfl⟩
      simpa using ih hj

theorem colIdxAux_mem {l : List String} {d : String} (h : d ∈ l) :
    ∃ i, colIdxAux l d = some i := by
  rcases ho : colIdxAux l d with _ | i
  · exact absurd (colIdxAux_eq_none.mp ho) (by simp [h])
  · exact ⟨i, rfl⟩

theorem colIdxAux_append_left {l l2 : List String} {d : String} (h : d ∈ l) :
    colIdxAux (l ++ l2) d = colIdxAux l d := by
  induction l with
  | nil => simp at h
  | cons c cs ih =>
    by_cases hc : c = d
    · simp [colIdxAux, hc]
    · have hd : d ∈ cs := by
        rcases List.mem_cons.mp h with h' | h'
        · exact absurd h'.symm hc
        · exact h'
      simp [colIdxAux, hc, ih hd]

theorem colIdxAux_append_right {l l2 : List String} {d : String} (h : d ∉ l) :
    colIdxAux (l ++ l2) d = (colIdxAux l2 d).map (· + l.length) := by
  induction l with
  | nil => simp
  | cons c cs ih =>
    have hc : c ≠ d := fun hh => h (by simp [hh])
    have hd : d ∉ cs := fun hh => h (by simp [hh])
    rw [List.cons_append, colIdxAux, if_neg hc, ih hd]
    cases colIdxAux l2 d with
    | none => rfl
    | some v =>
      simp only [Option.map_some', List.length_cons]
      try simp [Nat.add_assoc]
      try omega

theorem colIdxAux_ne_idx {l : List String} {c d : String} {i j : Nat}
    (hc : colIdxAux l c = some i) (hd : colIdxAux l d = some j) (hne : c ≠ d) :
    i ≠ j := by
  intro hij
  apply hne
  rw [← colIdxAux_getD hc, ← colIdxAux_getD hd, hij]

theorem colIdxAux_some_mem {l : List String} {d : String} {i : Nat}
    (h : colIdxAux l d = some i) : d ∈ l := by
  by_contra hm
  rw [colIdxAux_eq_none.mpr hm] at h
  exact Option.noConfusion h

theorem getD_set_self {α : Type _} (d : α) :
    ∀ (l : List α) (i : Nat) (a : α), i < l.length → (l.set i a).getD i d = a := by
  intro l
  induction l with
  | nil => intro i a h; simp at h
  | cons x xs ih =>
    intro i a h
    cases i with
    | zero => rfl
    | succ j => exact ih j a (by simpa using h)

theorem getD_set_ne {α : Type _} (d : α) :
    ∀ (l : List α) (i j : Nat) (a : α), i ≠ j → (l.set i a).getD j d = l.getD j d := by
  intro l
  induction l with
  | nil => intro i j a _; simp
  | cons x xs ih =>
    intro i j a hij
    cases i with
    | zero =>
      cases j with
      | zero => exact absurd rfl hij
      | succ k => rfl
    | succ i' =>
      cases j with
      | zero => rfl
      | succ k => exact ih i' k a (fun hh => hij (by rw [hh]))

theorem getD_append_self {α : Type _} (d : α) :
    ∀ (l : List α) (b : α), (l ++ [b]).getD l.length d = b := by
  intro l
  induction l with
  | nil => intro b; rfl
  | cons x xs ih => intro b; exact ih b

theorem getD_append_lt {α : Type _} (d : α) :
    ∀ (l l2 : List α) (i : Nat), i < l.length → (l ++ l2).getD i d = l.getD i d := by
  intro l
  induction l with
  | nil => intro l2 i h; simp at h
  | cons x xs ih =>
    intro l2 i h
    cases i with
    | zero => rfl
    | succ j => exact ih l2 j (by simpa using h)

/-! ### Frame operation lemmas -/

theorem DF.hasCol_iff {df : DF} {c : String} : df.hasCol c = true ↔ c ∈ df.cols := by
  simp [DF.hasCol]

theorem getColVals_length {df : DF} {c : String} {i : Nat} (h : df.colIdx c = some i) :
    (df.getColVals c).length = df.rows.length := by
  simp [DF.getColVals, h]

theorem getColVals_eq_map {df : DF} {c : String} {i : Nat} (h : df.colIdx c = some i) :
    df.getColVals c = df.rows.map (fun r => cellAt r i) := by
  simp [DF.getColVals, h]

theorem setCol_eq_some {df : DF} {c : String} {vs : List Val} {i : Nat}
    (hc : df.colIdx c = some i) :
    df.setCol c vs = ⟨df.cols, List.zipWith (fun r v => r.set i v) df.rows vs⟩ := by
  unfold DF.setCol
  rw [hc]

theorem setCol_eq_none {df : DF} {c : String} {vs : List Val} (hc : df.colIdx c = none) :
    df.setCol c vs = ⟨df.cols ++ [c], List.zipWith (fun r v => r ++ [v]) df.rows vs⟩ := by
  unfold DF.setCol
  rw [hc]

theorem setCol_cols {df : DF} {c : String} {vs : List Val} :
    (df.setCol c vs).cols = df.cols ∨ (df.setCol c vs).cols = df.cols ++ [c] := by
  cases hc : df.colIdx c with
  | some i => rw [setCol_eq_some hc]; left; rfl
  | none => rw [setCol_eq_none hc]; right; rfl

theorem setCol_cols_of_mem {df : DF} {c : String} {vs : List Val} (h : c ∈ df.cols) :
    (df.setCol c vs).cols = df.cols := by
  rcases colIdxAux_mem h with ⟨i, hi⟩
  unfold DF.setCol
  rw [show df.colIdx c = some i from hi]

theorem setCol_cols_of_not_mem {df : DF} {c : String} (vs : List Val) (h : c ∉ df.cols) :
    (df.setCol c vs).cols = df.cols ++ [c] := by
  unfold DF.setCol
  rw [show df.colIdx c = none from colIdxAux_eq_none.mpr h]

theorem setCol_rows_length {df : DF} {c : String} {vs : List Val}
    (hlen : vs.length = df.rows.length) : (df.setCol c vs).rows.length = df.rows.length := by
  cases hc : df.colIdx c with
  | some i => rw [setCol_eq_some hc]; simp [hlen]
  | none => rw [setCol_eq_none hc]; simp [hlen]

theorem setCol_Wf {df : DF} {c : String} {vs : List Val} (hwf : df.Wf)
    (_hlen : vs.length = df.rows.length) : (df.setCol c vs).Wf := by
  cases hc : df.colIdx c with
  | some i =>
    rw [setCol_eq_some hc]
    intro r hr
    rcases mem_zipWith hr with ⟨a, ha, b, _, rfl⟩
    simp [hwf a ha]
  | none =>
    rw [setCol_eq_none hc]
    intro r hr
    rcases mem_zipWith hr with ⟨a, ha, b, _, rfl⟩
    simp [hwf a ha]

theorem getColVals_setCol_self {df : DF} {c : String} {vs : List Val} (hwf : df.Wf)
    (hlen : vs.length = df.rows.length) : (df.setCol c vs).getColVals c = vs := by
  cases hc : df.colIdx c with
  | some i =>
    have hi : i < df.cols.length := colIdxAux_lt hc
    rw [setCol_eq_some hc]
    simp only [DF.getColVals, DF.colIdx]
    rw [show colIdxAux df.cols c = some i from hc]
    apply map_zipWith_cancel _ _ _ hlen
    intro a ha b _
    have hla : a.length = df.cols.length := hwf a ha
    rw [cellAt]
    exact getD_set_self _ a i b (by omega)
  | none =>
    have hone : colIdxAux (df.cols ++ [c]) c = some df.cols.length := by
      rw [colIdxAux_append_right (colIdxAux_eq_none.mp hc)]
      simp [colIdxAux]
    rw [setCol_eq_none hc]
    simp only [DF.getColVals, DF.colIdx]
    rw [hone]
    apply map_zipWith_cancel _ _ _ hlen
    intro a ha b _
    have hla : a.length = df.cols.length := hwf a ha
    rw [cellAt, ← hla]
    exact getD_append_self _ a b

theorem getColVals_setCol_ne {df : DF} {c d : String} {vs : List Val} (hwf : df.Wf)
    (hlen : vs.length = df.rows.length) (hne : d ≠ c) :
    (df.setCol c vs).getColVals d = df.getColVals d := by
  cases hc : df.colIdx c with
  | some i =>
    rw [setCol_eq_some hc]
    cases hd : df.colIdx d with
    | none =>
      have hd' : colIdxAux df.cols d = none := hd
      simp [DF.getColVals, DF.colIdx, hd']
    | some j =>
      have hij : i ≠ j := colIdxAux_ne_idx hc hd (fun hh => hne hh.symm)
      have hd' : colIdxAux df.cols d = some j := hd
      simp only [DF.getColVals, DF.colIdx, hd']
      apply map_zipWith_other _ _ _ _ hlen
      intro a ha b _
      rw [cellAt, cellAt]
      exact getD_set_ne _ a i j b hij
  | none =>
    cases hd : df.colIdx d with
    | none =>
      have hnone : colIdxAux (df.cols ++ [c]) d = none := by
        rw [colIdxAux_append_right (colIdxAux_eq_none.mp hd)]
        have hcd : colIdxAux [c] d = none := by
          simp only [colIdxAux]
          rw [if_neg (fun hh => hne hh.symm)]
          rfl
        rw [hcd]
        rfl
      have hd' : colIdxAux df.cols d = none := hd
      rw [setCol_eq_none hc]
      simp [DF.getColVals, DF.colIdx, hnone, hd']
    | some j =>
      have hj : j < df.cols.length := colIdxAux_lt hd
      have hmem : d ∈ df.cols := colIdxAux_some_mem hd
      have hsome : colIdxAux (df.cols ++ [c]) d = some j := by
        rw [colIdxAux_append_left hmem]
        exact hd
      have hd' : colIdxAux df.cols d = some j := hd
      rw [setCol_eq_none hc]
      simp only [DF.getColVals, DF.colIdx, hsome, hd']
      apply map_zipWith_other _ _ _ _ hlen
      intro a ha b _
      have hla : a.length = df.cols.length := hwf a ha
      rw [cellAt, cellAt]
      exact getD_append_lt _ a [b] j (by omega)

theorem select_cols (df : DF) (cs : List String) : (df.select cs).cols = cs := rfl

theorem select_Wf (df : DF) (cs : List String) : (df.select cs).Wf := by
  intro r hr
  rcases List.mem_map.mp hr with ⟨a, _, rfl⟩
  simp [DF.select]

theorem select_rows_length (df : DF) (cs : List String) :
    (df.select cs).rows.length = df.rows.length := by
  simp [DF.select]

theorem getColVals_select {df : DF} {cs : List String} {c : String} {k i : Nat}
    (hck : colIdxAux cs c = some k) (hi : df.colIdx c = some i) :
    (df.select cs).getColVals c = df.getColVals c := by
  have hk : k < cs.length := colIdxAux_lt hck
  have hi' : colIdxAux df.cols c = some i := hi
  simp only [DF.getColVals, DF.colIdx, DF.select, hck, hi']
  rw [List.map_map]
  apply List.map_congr_left
  intro r _
  simp only [Function.comp]
  rw [cellAt, getD_map_of_lt _ _ "" cs k hk, colIdxAux_getD hck, hi']

theorem fillna0_cols (df : DF) : df.fillna0.cols = df.cols := rfl

theorem fillna0_Wf {df : DF} (hwf : df.Wf) : df.fillna0.Wf := by
  intro r hr
  rcases List.mem_map.mp hr with ⟨a, ha, rfl⟩
  simp [DF.fillna0, hwf a ha]

theorem fillna0_rows_length (df : DF) : df.fillna0.rows.length = df.rows.length := by
  simp [DF.fillna0]

theorem getColVals_fillna0 {df : DF} (hwf : df.Wf) (c : String) :
    df.fillna0.getColVals c = (df.getColVals c).map fillVal := by
  cases hc : df.colIdx c with
  | none =>
    have hc' : colIdxAux df.cols c = none := hc
    simp [DF.getColVals, DF.fillna0, DF.colIdx, hc']
  | some i =>
    have hi := colIdxAux_lt hc
    have hc' : colIdxAux df.cols c = some i := hc
    simp only [DF.getColVals, DF.fillna0, DF.colIdx, hc']
    rw [List.map_map, List.map_map]
    apply List.map_congr_left
    intro r hr
    have hla : r.length = df.cols.length := hwf r hr
    simp only [Function.comp]
    rw [cellAt, cellAt, getD_map_of_lt fillVal _ Val.null r i (by omega)]

/-! ### Aggregation lemmas -/

theorem mem_dedupFirstGo {v : Val} :
    ∀ (l seen : List Val), v ∈ dedupFirstGo seen l → v ∈ l := by
  intro l
  induction l with
  | nil => intro seen h; simp [dedupFirstGo] at h
  | cons w ws ih =>
    intro seen h
    rw [dedupFirstGo] at h
    by_cases hw : seen.contains w
    · rw [if_pos hw] at h
      exact List.mem_cons_of_mem _ (ih seen h)
    · rw [if_neg hw] at h
      rcases List.mem_cons.mp h with h | h
      · simp [h]
      · exact List.mem_cons_of_mem _ (ih _ h)

theorem dedupFirstGo_not_mem_seen {v : Val} :
    ∀ (l seen : List Val), v ∈ dedupFirstGo seen l → v ∉ seen := by
  intro l
  induction l with
  | nil => intro seen h; simp [dedupFirstGo] at h
  | cons w ws ih =>
    intro seen h
    rw [dedupFirstGo] at h
    by_cases hw : seen.contains w
    · rw [if_pos hw] at h
      exact ih seen h
    · rw [if_neg hw] at h
      rcases List.mem_cons.mp h with h | h
      · subst h
        intro hm
        exact hw (by simpa using hm)
      · intro hm
        exact ih (w :: seen) h (List.mem_cons_of_mem _ hm)

theorem mem_dedupFirst {v : Val} {l : List Val} (h : v ∈ dedupFirst l) : v ∈ l :=
  mem_dedupFirstGo l [] h

theorem dedupFirstGo_nodup : ∀ (l seen : List Val), (dedupFirstGo seen l).Nodup := by
  intro l
  induction l with
  | nil => intro seen; simp [dedupFirstGo]
  | cons w ws ih =>
    intro seen
    rw [dedupFirstGo]
    by_cases hw : seen.contains w
    · rw [if_pos hw]
      exact ih seen
    · rw [if_neg hw]
      refine List.nodup_cons.mpr ⟨?_, ih (w :: seen)⟩
      intro hmem
      exact dedupFirstGo_not_mem_seen ws (w :: seen) hmem (by simp)

theorem dedupFirst_nodup (l : List Val) : (dedupFirst l).Nodup :=
  dedupFirstGo_nodup l []

theorem aggApply_numOrNull (k : AggKind) (vs : List Val) : numOrNull (aggApply k vs) := by
  cases k with
  | sum => exact Or.inr ⟨_, rfl⟩
  | max =>
    rw [aggApply]
    cases vs.filterMap toNumOpt with
    | nil => exact Or.inl rfl
    | cons q qs => exact Or.inr ⟨_, rfl⟩

theorem groupAgg_cols (df : DF) (key valCol outName : String) (k : AggKind) :
    (groupAgg df key valCol outName k).cols = [key, outName] := rfl

theorem groupAgg_key_col (df : DF) (key valCol outName : String) (k : AggKind) :
    (groupAgg df key valCol outName k).rows.map (fun r => cellAt r 0)
      = dedupFirst (df.rows.map (fun r => cellAt r ((df.colIdx key).getD 0))) := by
  simp only [groupAgg, List.map_map]
  conv_rhs => rw [← List.map_id (dedupFirst (df.rows.map (fun r => cellAt r ((df.colIdx key).getD 0))))]
  apply List.map_congr_left
  intro g _
  rfl

theorem groupAgg_keys_nodup (df : DF) (key valCol outName : String) (k : AggKind) :
    ((groupAgg df key valCol outName k).rows.map (fun r => cellAt r 0)).Nodup := by
  rw [groupAgg_key_col]
  exact dedupFirst_nodup _

theorem groupAgg_snd_numOrNull (df : DF) (key valCol outName : String) (k : AggKind) :
    ∀ rr ∈ (groupAgg df key valCol outName k).rows, numOrNull (cellAt rr 1) := by
  intro rr hrr
  rcases List.mem_map.mp hrr with ⟨g, _, rfl⟩
  exact aggApply_numOrNull _ _

theorem groupAgg_Wf (df : DF) (key valCol outName : String) (k : AggKind) :
    (groupAgg df key valCol outName k).Wf := by
  intro r hr
  rcases List.mem_map.mp hr with ⟨g, _, rfl⟩
  rfl

/-! ### Merge lemmas -/

theorem mergeLeft_agg_eq {l r : DF} {key out : String} {li : Nat}
    (hrc : r.cols = [key, out]) (hli : l.colIdx key = some li) :
    l.mergeLeft r key = ⟨l.cols ++ [out],
      l.rows.flatMap (fun lr =>
        let ms := r.rows.filter (fun rr => cellAt rr 0 = cellAt lr li)
        if ms.isEmpty then [lr ++ [Val.null]]
        else ms.map (fun rr => lr ++ [cellAt rr 1]))⟩ := by
  have hri : r.colIdx key = some 0 := by
    rw [DF.colIdx, hrc]
    simp [colIdxAux]
  have hjs : nonKeyIdx r 0 = [1] := by
    rw [nonKeyIdx, hrc]
    rfl
  simp only [DF.mergeLeft]
  rw [hri, hli]
  simp only [Option.getD_some, hjs, hrc]
  rfl

theorem mergeLeft_agg_rows {l r : DF} {key out : String} {li : Nat}
    (hrc : r.cols = [key, out]) (hli : l.colIdx key = some li)
    (hnod : (r.rows.map (fun rr => cellAt rr 0)).Nodup) :
    ∃ w : List Val → Val,
      (l.mergeLeft r key).rows = l.rows.map (fun lr => lr ++ [w lr])
      ∧ ∀ lr, w lr = Val.null ∨ ∃ rr ∈ r.rows, w lr = cellAt rr 1 := by
  refine ⟨fun lr =>
    match r.rows.filter (fun rr => cellAt rr 0 = cellAt lr li) with
    | [] => Val.null
    | rr :: _ => cellAt rr 1, ?_, ?_⟩
  · rw [mergeLeft_agg_eq hrc hli]
    apply flatMap_eq_map
    intro lr _
    have hle := filter_map_eq_length_le_one (fun rr => cellAt rr 0) hnod (cellAt lr li)
    cases hf : r.rows.filter (fun rr => cellAt rr 0 = cellAt lr li) with
    | nil => simp [hf]
    | cons rr rest =>
      have hrest : rest = [] := by
        rw [hf] at hle
        simpa using hle
      subst hrest
      simp [hf]
  · intro lr
    cases hf : r.rows.filter (fun rr => cellAt rr 0 = cellAt lr li) with
    | nil => simp [hf]
    | cons rr rest =>
      right
      refine ⟨rr, ?_, by simp [hf]⟩
      have : rr ∈ r.rows.filter (fun rr => cellAt rr 0 = cellAt lr li) := by
        rw [hf]
        simp
      exact List.mem_of_mem_filter this

theorem mergeSource_facts (m src : DF) (hint out : String) (k : AggKind) {li : Nat}
    (hwf : m.Wf) (hli : m.colIdx "clean_id" = some li) (hom : out ∉ m.cols) :
    (mergeSource m src hint out k).Wf
    ∧ ((mergeSource m src hint out k).cols = m.cols
        ∨ (mergeSource m src hint out k).cols = m.cols ++ [out])
    ∧ (∀ c j, m.colIdx c = some j → (mergeSource m src hint out k).colIdx c = some j
        ∧ (mergeSource m src hint out k).getColVals c = m.getColVals c)
    ∧ (∀ v ∈ (mergeSource m src hint out k).getColVals out, numOrNull v)
    ∧ (mergeSource m src hint out k).rows.length = m.rows.length := by
  have homn : m.colIdx out = none := colIdxAux_eq_none.mpr hom
  by_cases hcond : (!src.isEmpty && src.hasCol "clean_id") = true
  · rcases hfind : src.cols.find? (fun c => containsStr (lowerStr c) hint) with _ | vc
    · have hms : mergeSource m src hint out k = m := by
        unfold mergeSource
        rw [if_pos hcond, hfind]
      rw [hms]
      refine ⟨hwf, Or.inl rfl, fun c j hj => ⟨hj, rfl⟩, ?_, rfl⟩
      intro v hv
      rw [DF.getColVals, homn] at hv
      simp at hv
    · have hms : mergeSource m src hint out k
          = m.mergeLeft (groupAgg src "clean_id" vc out k) "clean_id" := by
        unfold mergeSource
        rw [if_pos hcond, hfind]
      set g := groupAgg src "clean_id" vc out k with hg
      have hgc : g.cols = ["clean_id", out] := groupAgg_cols _ _ _ _ _
      have hnod := groupAgg_keys_nodup src "clean_id" vc out k
      rcases mergeLeft_agg_rows hgc hli hnod with ⟨w, hrows, hwv⟩
      have hcols : (m.mergeLeft g "clean_id").cols = m.cols ++ [out] := by
        rw [mergeLeft_agg_eq hgc hli]
      have hli' : li < m.cols.length := colIdxAux_lt hli
      rw [hms]
      refine ⟨?_, Or.inr hcols, ?_, ?_, ?_⟩
      · intro r hr
        rw [hrows] at hr
        rcases List.mem_map.mp hr with ⟨lr, hlr, rfl⟩
        rw [hcols]
        simp [hwf lr hlr]
      · intro c j hj
        have hmem : c ∈ m.cols := colIdxAux_some_mem hj
        have hjlt : j < m.cols.length := colIdxAux_lt hj
        have hidx : (m.mergeLeft g "clean_id").colIdx c = some j := by
          rw [DF.colIdx, hcols, colIdxAux_append_left hmem]
          exact hj
        refine ⟨hidx, ?_⟩
        rw [getColVals_eq_map hidx, getColVals_eq_map hj, hrows, List.map_map]
        apply List.map_congr_left
        intro lr hlr
        have hla : lr.length = m.cols.length := hwf lr hlr
        simp only [Function.comp]
        rw [cellAt, cellAt]
        exact getD_append_lt _ lr _ j (by omega)
      · intro v hv
        have hidx : (m.mergeLeft g "clean_id").colIdx out = some m.cols.length := by
          rw [DF.colIdx, hcols, colIdxAux_append_right hom]
          simp [colIdxAux]
        rw [getColVals_eq_map hidx, hrows, List.map_map] at hv
        rcases List.mem_map.mp hv with ⟨lr, hlr, rfl⟩
        have hla : lr.length = m.cols.length := hwf lr hlr
        simp only [Function.comp, cellAt]
        rw [← hla, getD_append_self]
        rcases hwv lr with hnull | ⟨rr, hrr, hval⟩
        · rw [hnull]
          exact Or.inl rfl
        · rw [hval]
          exact groupAgg_snd_numOrNull src "clean_id" vc out k rr hrr
      · rw [hrows]
        simp
  · have hms : mergeSource m src hint out k = m := by
      unfold mergeSource
      rw [if_neg hcond]
    rw [hms]
    refine ⟨hwf, Or.inl rfl, fun c j hj => ⟨hj, rfl⟩, ?_, rfl⟩
    intro v hv
    rw [DF.getColVals, homn] at hv
    simp at hv

theorem setCol_mem_self {df : DF} {c : String} {vs : List Val} :
    c ∈ (df.setCol c vs).cols := by
  by_cases h : c ∈ df.cols
  · rw [setCol_cols_of_mem h]
    exact h
  · rw [setCol_cols_of_not_mem vs h]
    simp

/-! ### Engine stage lemmas -/

theorem addPayoff_eq_none {fin : DF} (hfind : fin.cols.find? payColPred = none) :
    addPayoff fin
      = fin.setCol "payoff_balance" (List.replicate fin.rows.length (.num 0)) := by
  unfold addPayoff
  rw [hfind]

theorem addPayoff_eq_some {fin : DF} {pc : String}
    (hfind : fin.cols.find? payColPred = some pc) :
    addPayoff fin
      = fin.setCol "payoff_balance"
          ((fin.getColVals pc).map (fun v => .num (toNumD v * 12))) := by
  unfold addPayoff
  rw [hfind]

theorem addPayoff_facts (fin : DF) (hwf : fin.Wf) :
    (addPayoff fin).Wf
    ∧ (addPayoff fin).rows.length = fin.rows.length
    ∧ (∀ d, d ≠ "payoff_balance" → (addPayoff fin).getColVals d = fin.getColVals d)
    ∧ "payoff_balance" ∈ (addPayoff fin).cols
    ∧ ((addPayoff fin).cols = fin.cols ∨ (addPayoff fin).cols = fin.cols ++ ["payoff_balance"]) := by
  rcases hfind : fin.cols.find? payColPred with _ | pc
  · have ha : addPayoff fin = fin.setCol "payoff_balance" (List.replicate fin.rows.length (.num 0)) := by
      unfold addPayoff
      rw [hfind]
    have hlen : (List.replicate fin.rows.length (Val.num 0)).length = fin.rows.length := by simp
    rw [ha]
    exact ⟨setCol_Wf hwf hlen, setCol_rows_length hlen,
      fun d hd => getColVals_setCol_ne hwf hlen hd, setCol_mem_self, setCol_cols⟩
  · have ha : addPayoff fin
        = fin.setCol "payoff_balance" ((fin.getColVals pc).map (fun v => .num (toNumD v * 12))) := by
      unfold addPayoff
      rw [hfind]
    have hpc : pc ∈ fin.cols := List.mem_of_find?_eq_some hfind
    rcases colIdxAux_mem hpc with ⟨i, hi⟩
    have hlen : ((fin.getColVals pc).map (fun v => Val.num (toNumD v * 12))).length
        = fin.rows.length := by
      rw [List.length_map]
      exact getColVals_length hi
    rw [ha]
    exact ⟨setCol_Wf hwf hlen, setCol_rows_length hlen,
      fun d hd => getColVals_setCol_ne hwf hlen hd, setCol_mem_self, setCol_cols⟩

theorem addMetaCol_facts (fin m : DF) (c : String) (hwf : m.Wf)
    (hlen : m.rows.length = fin.rows.length) (hcm : c ∉ m.cols) :
    (addMetaCol fin m c).cols = m.cols ++ [c]
    ∧ (addMetaCol fin m c).Wf
    ∧ (addMetaCol fin m c).rows.length = m.rows.length
    ∧ (∀ d, d ≠ c → (addMetaCol fin m c).getColVals d = m.getColVals d) := by
  rcases hfind : fin.cols.find? (fun x => containsStr (lowerStr x) c) with _ | col
  · have ha : addMetaCol fin m c = m.setCol c (List.replicate m.rows.length (.str "N/A")) := by
      unfold addMetaCol
      rw [hfind]
    have hl : (List.replicate m.rows.length (Val.str "N/A")).length = m.rows.length := by simp
    rw [ha]
    exact ⟨setCol_cols_of_not_mem _ hcm, setCol_Wf hwf hl, setCol_rows_length hl,
      fun d hd => getColVals_setCol_ne hwf hl hd⟩
  · have ha : addMetaCol fin m c = m.setCol c (fin.getColVals col) := by
      unfold addMetaCol
      rw [hfind]
    have hcol : col ∈ fin.cols := List.mem_of_find?_eq_some hfind
    rcases colIdxAux_mem hcol with ⟨i, hi⟩
    have hl : (fin.getColVals col).length = m.rows.length := by
      rw [getColVals_length hi, hlen]
    rw [ha]
    exact ⟨setCol_cols_of_not_mem _ hcm, setCol_Wf hwf hl, setCol_rows_length hl,
      fun d hd => getColVals_setCol_ne hwf hl hd⟩

theorem buildBase_facts (fin : DF) {fi : Nat} (hfi : fin.colIdx "clean_id" = some fi) :
    (buildBase fin).cols = ["clean_id", "payoff_balance", "make", "model", "year"]
    ∧ (buildBase fin).Wf
    ∧ (buildBase fin).rows.length = fin.rows.length
    ∧ (buildBase fin).getColVals "clean_id" = fin.getColVals "clean_id" := by
  have h0c : (fin.select ["clean_id", "payoff_balance"]).cols = ["clean_id", "payoff_balance"] := rfl
  have h0w : (fin.select ["clean_id", "payoff_balance"]).Wf := select_Wf _ _
  have h0l : (fin.select ["clean_id", "payoff_balance"]).rows.length = fin.rows.length :=
    select_rows_length _ _
  have h0g : (fin.select ["clean_id", "payoff_balance"]).getColVals "clean_id"
      = fin.getColVals "clean_id" :=
    @getColVals_select fin ["clean_id", "payoff_balance"] "clean_id" 0 fi (by decide) hfi
  obtain ⟨h1c, h1w, h1l, h1g⟩ :=
    addMetaCol_facts fin (fin.select ["clean_id", "payoff_balance"]) "make" h0w h0l
      (by rw [h0c]; decide)
  rw [h0c] at h1c
  obtain ⟨h2c, h2w, h2l, h2g⟩ :=
    addMetaCol_facts fin (addMetaCol fin (fin.select ["clean_id", "payoff_balance"]) "make")
      "model" h1w (h1l.trans h0l) (by rw [h1c]; decide)
  rw [h1c] at h2c
  obtain ⟨h3c, h3w, h3l, h3g⟩ :=
    addMetaCol_facts fin
      (addMetaCol fin (addMetaCol fin (fin.select ["clean_id", "payoff_balance"]) "make") "model")
      "year" h2w ((h2l.trans h1l).trans h0l) (by rw [h2c]; decide)
  rw [h2c] at h3c
  refine ⟨by rw [buildBase, h3c]; rfl, h3w, ?_, ?_⟩
  · rw [buildBase]
    exact ((h3l.trans h2l).trans h1l).trans h0l
  · rw [buildBase, h3g _ (by decide), h2g _ (by decide), h1g _ (by decide), h0g]

theorem estResaleCols_facts (m : DF) (oi : Nat) (hwf : m.Wf)
    (hem : "est_resale" ∉ m.cols) (hnm : "net_equity" ∉ m.cols)
    {pj : Nat} (hpj : m.colIdx "payoff_balance" = some pj) :
    (estResaleCols m oi).cols = (m.cols ++ ["est_resale"]) ++ ["net_equity"]
    ∧ (estResaleCols m oi).Wf
    ∧ (estResaleCols m oi).rows.length = m.rows.length
    ∧ (∀ d, d ≠ "est_resale" → d ≠ "net_equity" →
        (estResaleCols m oi).getColVals d = m.getColVals d)
    ∧ (estResaleCols m oi).getColVals "est_resale"
        = (m.rows.map (fun r =>
            valSub (.num 65000) (valMul (cellAt r oi) (.num (5 / 100))))).map clipLow := by
  rw [estResaleCols]
  set e0 := m.rows.map (fun r => valSub (.num 65000) (valMul (cellAt r oi) (.num (5 / 100))))
    with he0
  have he0l : e0.length = m.rows.length := by rw [he0, List.length_map]
  set m1 := m.setCol "est_resale" e0 with hm1
  have h1c : m1.cols = m.cols ++ ["est_resale"] := setCol_cols_of_not_mem e0 hem
  have h1w : m1.Wf := setCol_Wf hwf he0l
  have h1l : m1.rows.length = m.rows.length := setCol_rows_length he0l
  have h1self : m1.getColVals "est_resale" = e0 := getColVals_setCol_self hwf he0l
  have h1ne : ∀ d, d ≠ "est_resale" → m1.getColVals d = m.getColVals d :=
    fun d hd => getColVals_setCol_ne hwf he0l hd
  set m2 := m1.setCol "est_resale" ((m1.getColVals "est_resale").map clipLow) with hm2
  have h2vl : ((m1.getColVals "est_resale").map clipLow).length = m1.rows.length := by
    rw [List.length_map, h1self, he0l, h1l]
  have h2c : m2.cols = m1.cols := setCol_cols_of_mem (by rw [h1c]; simp)
  have h2w : m2.Wf := setCol_Wf h1w h2vl
  have h2l : m2.rows.length = m1.rows.length := setCol_rows_length h2vl
  have h2self : m2.getColVals "est_resale" = e0.map clipLow := by
    rw [hm2, getColVals_setCol_self h1w h2vl, h1self]
  have h2ne : ∀ d, d ≠ "est_resale" → m2.getColVals d = m1.getColVals d :=
    fun d hd => getColVals_setCol_ne h1w h2vl hd
  have hpj2 : m2.colIdx "payoff_balance" = some pj := by
    rw [DF.colIdx, h2c, h1c, colIdxAux_append_left (colIdxAux_some_mem hpj)]
    exact hpj
  have hpayl : (m2.getColVals "payoff_balance").length = m2.rows.length := getColVals_length hpj2
  have h3vl : (List.zipWith valSub (m2.getColVals "est_resale")
      (m2.getColVals "payoff_balance")).length = m2.rows.length := by
    rw [List.length_zipWith, hpayl, h2self, List.length_map, he0l, h2l, h1l]
    exact Nat.min_self _ |>.symm ▸ by omega
  have hnm2 : "net_equity" ∉ m2.cols := by
    rw [h2c, h1c]
    intro hmem
    rcases List.mem_append.mp hmem with hx | hx
    · exact hnm hx
    · simp at hx
  refine ⟨?_, setCol_Wf h2w h3vl, ?_, ?_, ?_⟩
  · rw [setCol_cols_of_not_mem _ hnm2, h2c, h1c]
  · rw [setCol_rows_length h3vl, h2l, h1l]
  · intro d hde hdn
    rw [getColVals_setCol_ne h2w h3vl hdn, h2ne d hde, h1ne d hde]
  · rw [getColVals_setCol_ne h2w h3vl (by decide), h2self]

theorem classifyCols_facts (m : DF) (ti ri : Nat) (hwf : m.Wf) :
    (classifyCols m ti ri).rows.length = m.rows.length
    ∧ (∀ d, d ≠ "cpm" → d ≠ "Action" → d ≠ "Reasoning" →
        (classifyCols m ti ri).getColVals d = m.getColVals d)
    ∧ (classifyCols m ti ri).getColVals "cpm"
        = m.rows.map (fun r => valDiv (cellAt r ti) (replace0 (cellAt r ri))) := by
  rw [classifyCols]
  set v4 := m.rows.map (fun r => valDiv (cellAt r ti) (replace0 (cellAt r ri))) with hv4
  have hv4l : v4.length = m.rows.length := by rw [hv4, List.length_map]
  set m4 := m.setCol "cpm" v4 with hm4
  have h4w : m4.Wf := setCol_Wf hwf hv4l
  have h4l : m4.rows.length = m.rows.length := setCol_rows_length hv4l
  have h4self : m4.getColVals "cpm" = v4 := getColVals_setCol_self hwf hv4l
  have h4ne : ∀ d, d ≠ "cpm" → m4.getColVals d = m.getColVals d :=
    fun d hd => getColVals_setCol_ne hwf hv4l hd
  set recs := m4.rows.map (fun r =>
    get_rec (numAt m4 r "odometer") (numAt m4 r "cpm")
      (numAt m4 r "net_equity") (numAt m4 r "recent_miles")) with hrecs
  have hrl : (recs.map (fun p => Val.str p.1)).length = m4.rows.length := by
    rw [List.length_map, hrecs, List.length_map]
  set m5 := m4.setCol "Action" (recs.map (fun p => Val.str p.1)) with hm5
  have h5w : m5.Wf := setCol_Wf h4w hrl
  have h5l : m5.rows.length = m4.rows.length := setCol_rows_length hrl
  have h5ne : ∀ d, d ≠ "Action" → m5.getColVals d = m4.getColVals d :=
    fun d hd => getColVals_setCol_ne h4w hrl hd
  have hrl2 : (recs.map (fun p => Val.str p.2)).length = m5.rows.length := by
    rw [List.length_map, hrecs, List.length_map, h5l]
  refine ⟨?_, ?_, ?_⟩
  · rw [setCol_rows_length hrl2, h5l, h4l]
  · intro d hdc hda hdr
    rw [getColVals_setCol_ne h5w hrl2 hdr, h5ne d hda, h4ne d hdc]
  · rw [getColVals_setCol_ne h5w hrl2 (by decide), h5ne _ (by decide), h4self]

theorem computeCols_ok_cases {m res : DF} (h : computeCols m = .ok res) :
    ∃ oi ti ri, m.colIdx "odometer" = some oi
      ∧ (estResaleCols m oi).colIdx "total_repairs" = some ti
      ∧ (estResaleCols m oi).colIdx "recent_miles" = some ri
      ∧ res = classifyCols (estResaleCols m oi) ti ri := by
  rcases ho : m.colIdx "odometer" with _ | oi
  · simp only [computeCols, ho] at h
    exact Except.noConfusion h
  · rcases ht : (estResaleCols m oi).colIdx "total_repairs" with _ | ti
    · simp only [computeCols, ho, ht] at h
      exact Except.noConfusion h
    · rcases hr : (estResaleCols m oi).colIdx "recent_miles" with _ | ri
      · simp only [computeCols, ho, ht, hr] at h
        exact Except.noConfusion h
      · simp only [computeCols, ho, ht, hr] at h
        exact ⟨oi, ti, ri, rfl, ht, hr, (Except.ok.inj h).symm⟩

theorem computeCols_ok_shape {m res : DF} (hwf : m.Wf)
    (hcols : m.cols = ["clean_id", "payoff_balance", "make", "model", "year",
      "total_repairs", "odometer", "recent_miles"])
    (h : computeCols m = .ok res) :
    res.getColVals "clean_id" = m.getColVals "clean_id"
    ∧ res.getColVals "total_repairs" = m.getColVals "total_repairs"
    ∧ res.getColVals "odometer" = m.getColVals "odometer"
    ∧ res.getColVals "recent_miles" = m.getColVals "recent_miles"
    ∧ res.getColVals "est_resale"
        = (m.getColVals "odometer").map
            (fun v => clipLow (valSub (.num 65000) (valMul v (.num (5 / 100)))))
    ∧ res.getColVals "cpm"
        = List.zipWith (fun a b => valDiv a (replace0 b))
            (m.getColVals "total_repairs") (m.getColVals "recent_miles")
    ∧ res.rows.length = m.rows.length := by
  obtain ⟨oi, ti, ri, ho, ht, hr, hres⟩ := computeCols_ok_cases h
  have ho6 : m.colIdx "odometer" = some 6 := by rw [DF.colIdx, hcols]; decide
  have hoi : oi = 6 := by
    rw [ho6] at ho
    exact (Option.some.inj ho).symm
  subst hoi
  have hpj : m.colIdx "payoff_balance" = some 1 := by rw [DF.colIdx, hcols]; decide
  obtain ⟨hEc, hEw, hEl, hEne, hEest⟩ :=
    estResaleCols_facts m 6 hwf (by rw [hcols]; decide) (by rw [hcols]; decide) hpj
  have hEt5 : (estResaleCols m 6).colIdx "total_repairs" = some 5 := by
    rw [DF.colIdx, hEc, hcols]
    decide
  have hEr7 : (estResaleCols m 6).colIdx "recent_miles" = some 7 := by
    rw [DF.colIdx, hEc, hcols]
    decide
  have hti : ti = 5 := by
    rw [hEt5] at ht
    exact (Option.some.inj ht).symm
  have hri : ri = 7 := by
    rw [hEr7] at hr
    exact (Option.some.inj hr).symm
  subst hti
  subst hri
  subst hres
  obtain ⟨hCl, hCne, hCcpm⟩ := classifyCols_facts (estResaleCols m 6) 5 7 hEw
  have hEtr : (estResaleCols m 6).getColVals "total_repairs" = m.getColVals "total_repairs" :=
    hEne _ (by decide) (by decide)
  have hErm : (estResaleCols m 6).getColVals "recent_miles" = m.getColVals "recent_miles" :=
    hEne _ (by decide) (by decide)
  refine ⟨?_, ?_, ?_, ?_, ?_, ?_, ?_⟩
  · rw [hCne _ (by decide) (by decide) (by decide), hEne _ (by decide) (by decide)]
  · rw [hCne _ (by decide) (by decide) (by decide), hEtr]
  · rw [hCne _ (by decide) (by decide) (by decide), hEne _ (by decide) (by decide)]
  · rw [hCne _ (by decide) (by decide) (by decide), hErm]
  · rw [hCne _ (by decide) (by decide) (by decide), hEest, getColVals_eq_map ho6,
      List.map_map, List.map_map]
    rfl
  · calc (classifyCols (estResaleCols m 6) 5 7).getColVals "cpm"
        = (estResaleCols m 6).rows.map
            (fun r => valDiv (cellAt r 5) (replace0 (cellAt r 7))) := hCcpm
      _ = List.zipWith (fun a b => valDiv a (replace0 b))
            ((estResaleCols m 6).rows.map (fun r => cellAt r 5))
            ((estResaleCols m 6).rows.map (fun r => cellAt r 7)) :=
          map_two_cols (fun a b => valDiv a (replace0 b)) (fun r => cellAt r 5)
            (fun r => cellAt r 7) (estResaleCols m 6).rows
      _ = List.zipWith (fun a b => valDiv a (replace0 b))
            ((estResaleCols m 6).getColVals "total_repairs")
            ((estResaleCols m 6).getColVals "recent_miles") := by
          rw [getColVals_eq_map hEt5, getColVals_eq_map hEr7]
      _ = List.zipWith (fun a b => valDiv a (replace0 b))
            (m.getColVals "total_repairs") (m.getColVals "recent_miles") := by
          rw [hEtr, hErm]
  · rw [hCl, hEl]

theorem masterOf_facts (dfs : Sources) (hwf : dfs.finance.Wf)
    (hhas : dfs.finance.hasCol "clean_id" = true) :
    (masterOf dfs).Wf
    ∧ (masterOf dfs).getColVals "clean_id"
        = (dfs.finance.getColVals "clean_id").map fillVal
    ∧ ((masterOf dfs).cols = ["clean_id", "payoff_balance", "make", "model", "year",
          "total_repairs", "odometer", "recent_miles"]
        ∨ "total_repairs" ∉ (masterOf dfs).cols
        ∨ "odometer" ∉ (masterOf dfs).cols
        ∨ "recent_miles" ∉ (masterOf dfs).cols)
    ∧ ("total_repairs" ∈ (masterOf dfs).cols →
        ∀ v ∈ (masterOf dfs).getColVals "total_repairs", ∃ q, v = Val.num q)
    ∧ ("odometer" ∈ (masterOf dfs).cols →
        ∀ v ∈ (masterOf dfs).getColVals "odometer", ∃ q, v = Val.num q)
    ∧ ("recent_miles" ∈ (masterOf dfs).cols →
        ∀ v ∈ (masterOf dfs).getColVals "recent_miles", ∃ q, v = Val.num q)
    ∧ "est_resale" ∉ (masterOf dfs).cols
    ∧ "net_equity" ∉ (masterOf dfs).cols
    ∧ (masterOf dfs).colIdx "payoff_balance" = some 1 := by
  have hmem : "clean_id" ∈ dfs.finance.cols := DF.hasCol_iff.mp hhas
  obtain ⟨hPw, hPl, hPne, hPpb, hPc⟩ := addPayoff_facts dfs.finance hwf
  have hkeysP : (addPayoff dfs.finance).getColVals "clean_id"
      = dfs.finance.getColVals "clean_id" := hPne _ (by decide)
  have hmem2 : "clean_id" ∈ (addPayoff dfs.finance).cols := by
    rcases hPc with hc | hc <;> rw [hc]
    · exact hmem
    · exact List.mem_append_left _ hmem
  obtain ⟨fi2, hfi2⟩ := colIdxAux_mem hmem2
  obtain ⟨hBc, hBw, hBl, hBg⟩ := buildBase_facts (addPayoff dfs.finance) hfi2
  set B := buildBase (addPayoff dfs.finance) with hB
  have hB0 : B.colIdx "clean_id" = some 0 := by rw [DF.colIdx, hBc]; decide
  obtain ⟨h1w, h1cd, h1pres, h1nums, h1len⟩ :=
    mergeSource_facts B dfs.repairs "amount" "total_repairs" AggKind.sum hBw hB0
      (by rw [hBc]; decide)
  set M1 := mergeSource B dfs.repairs "amount" "total_repairs" AggKind.sum with hM1
  have h1idx : M1.colIdx "clean_id" = some 0 := (h1pres _ 0 hB0).1
  have h1keys : M1.getColVals "clean_id" = B.getColVals "clean_id" := (h1pres _ 0 hB0).2
  have hodnm : "odometer" ∉ M1.cols := by
    rcases h1cd with hc | hc <;> rw [hc, hBc] <;> decide
  obtain ⟨h2w, h2cd, h2pres, h2nums, h2len⟩ :=
    mergeSource_facts M1 dfs.odometer "odo" "odometer" AggKind.max h1w h1idx hodnm
  set M2 := mergeSource M1 dfs.odometer "odo" "odometer" AggKind.max with hM2
  have h2idx : M2.colIdx "clean_id" = some 0 := (h2pres _ 0 h1idx).1
  have h2keys : M2.getColVals "clean_id" = M1.getColVals "clean_id" := (h2pres _ 0 h1idx).2
  have hrmnm : "recent_miles" ∉ M2.cols := by
    rcases h1cd with h1c | h1c <;> rcases h2cd with h2c | h2c <;> rw [h2c, h1c, hBc] <;> decide
  obtain ⟨h3w, h3cd, h3pres, h3nums, h3len⟩ :=
    mergeSource_facts M2 dfs.distance "dist" "recent_miles" AggKind.sum h2w h2idx hrmnm
  set M3 := mergeSource M2 dfs.distance "dist" "recent_miles" AggKind.sum with hM3
  have h3keys : M3.getColVals "clean_id" = M2.getColVals "clean_id" := (h3pres _ 0 h2idx).2
  have hM4 : masterOf dfs = M3.fillna0 := rfl
  refine ⟨?_, ?_, ?_, ?_, ?_, ?_, ?_, ?_, ?_⟩
  · rw [hM4]
    exact fillna0_Wf h3w
  · rw [hM4, getColVals_fillna0 h3w, h3keys, h2keys, h1keys, hBg, hkeysP]
  · rw [hM4, fillna0_cols]
    rcases h1cd with h1c | h1c
    · right
      left
      rcases h2cd with h2c | h2c <;> rcases h3cd with h3c | h3c <;>
        rw [h3c, h2c, h1c, hBc] <;> decide
    · rcases h2cd with h2c | h2c
      · right
        right
        left
        rcases h3cd with h3c | h3c <;> rw [h3c, h2c, h1c, hBc] <;> decide
      · rcases h3cd with h3c | h3c
        · right
          right
          right
          rw [h3c]
          exact hrmnm
        · left
          rw [h3c, h2c, h1c, hBc]
          rfl
  · rw [hM4, fillna0_cols]
    intro hm v hv
    have hm1 : "total_repairs" ∈ M1.cols := by
      rcases h2cd with h2c | h2c <;> rcases h3cd with h3c | h3c <;>
        rw [h3c, h2c] at hm <;>
        first
        | exact hm
        | (simp only [List.mem_append, List.mem_singleton] at hm; tauto)
    obtain ⟨j, hj⟩ := colIdxAux_mem hm1
    have h2f := h2pres _ j hj
    have h3f := h3pres _ j h2f.1
    rw [getColVals_fillna0 h3w, h3f.2, h2f.2] at hv
    rcases List.mem_map.mp hv with ⟨u, hu, rfl⟩
    rcases h1nums u hu with hnull | ⟨q, hq⟩
    · rw [hnull]
      exact ⟨0, rfl⟩
    · rw [hq]
      exact ⟨q, rfl⟩
  · rw [hM4, fillna0_cols]
    intro hm v hv
    have hm2 : "odometer" ∈ M2.cols := by
      rcases h3cd with h3c | h3c <;> rw [h3c] at hm
      · exact hm
      · simp only [List.mem_append, List.mem_singleton] at hm
        tauto
    obtain ⟨j, hj⟩ := colIdxAux_mem hm2
    have h3f := h3pres _ j hj
    rw [getColVals_fillna0 h3w, h3f.2] at hv
    rcases List.mem_map.mp hv with ⟨u, hu, rfl⟩
    rcases h2nums u hu with hnull | ⟨q, hq⟩
    · rw [hnull]
      exact ⟨0, rfl⟩
    · rw [hq]
      exact ⟨q, rfl⟩
  · rw [hM4, fillna0_cols]
    intro _ v hv
    rw [getColVals_fillna0 h3w] at hv
    rcases List.mem_map.mp hv with ⟨u, hu, rfl⟩
    rcases h3nums u hu with hnull | ⟨q, hq⟩
    · rw [hnull]
      exact ⟨0, rfl⟩
    · rw [hq]
      exact ⟨q, rfl⟩
  · rw [hM4, fillna0_cols]
    rcases h1cd with h1c | h1c <;> rcases h2cd with h2c | h2c <;>
      rcases h3cd with h3c | h3c <;> rw [h3c, h2c, h1c, hBc] <;> decide
  · rw [hM4, fillna0_cols]
    rcases h1cd with h1c | h1c <;> rcases h2cd with h2c | h2c <;>
      rcases h3cd with h3c | h3c <;> rw [h3c, h2c, h1c, hBc] <;> decide
  · rw [hM4, DF.colIdx, fillna0_cols]
    rcases h1cd with h1c | h1c <;> rcases h2cd with h2c | h2c <;>
      rcases h3cd with h3c | h3c <;> rw [h3c, h2c, h1c, hBc] <;> decide

theorem run_logic_eq_guard {dfs : Sources}
    (hg : (dfs.finance.isEmpty || !dfs.finance.hasCol "clean_id") = true) :
    run_logic dfs = (.ok emptyDF, dfs) := by
  unfold run_logic
  rw [if_pos hg]

theorem run_logic_eq_main {dfs : Sources}
    (hg : ¬(dfs.finance.isEmpty || !dfs.finance.hasCol "clean_id") = true) :
    run_logic dfs
      = (computeCols (masterOf dfs), { dfs with finance := addPayoff dfs.finance }) := by
  unfold run_logic
  rw [if_neg hg]

theorem guard_true_keys {fin : DF}
    (hg : (fin.isEmpty || !fin.hasCol "clean_id") = true) :
    fin.getColVals "clean_id" = [] := by
  rw [Bool.or_eq_true] at hg
  rcases hg with he | hn
  · rw [DF.isEmpty, Bool.or_eq_true] at he
    rcases he with hr | hc
    · have hre : fin.rows = [] := List.isEmpty_iff.mp hr
      rcases hci : fin.colIdx "clean_id" with _ | i <;> simp [DF.getColVals, hci, hre]
    · have hce : fin.cols = [] := List.isEmpty_iff.mp hc
      have hnone : fin.colIdx "clean_id" = none := by rw [DF.colIdx, hce]; rfl
      simp [DF.getColVals, hnone]
  · have hf : fin.hasCol "clean_id" = false := by
      rcases hb : fin.hasCol "clean_id"
      · rfl
      · rw [hb] at hn
        exact Bool.noConfusion hn
    have hnotmem : "clean_id" ∉ fin.cols := by
      intro hm
      rw [DF.hasCol_iff.mpr hm] at hf
      exact Bool.noConfusion hf
    have hnone : fin.colIdx "clean_id" = none := colIdxAux_eq_none.mpr hnotmem
    simp [DF.getColVals, hnone]

theorem run_logic_ok_facts {dfs : Sources} {m : DF} {s2 : Sources}
    (hwf : dfs.finance.Wf) (h : run_logic dfs = (.ok m, s2)) :
    m.getColVals "clean_id" = (dfs.finance.getColVals "clean_id").map fillVal
    ∧ ∀ i, i < m.rows.length → ∃ tq oq rq : ℚ,
        (m.getColVals "total_repairs").getD i Val.null = .num tq
        ∧ (m.getColVals "odometer").getD i Val.null = .num oq
        ∧ (m.getColVals "recent_miles").getD i Val.null = .num rq
        ∧ (m.getColVals "est_resale").getD i Val.null
            = .num (Max.max 10000 (65000 - oq * (5 / 100)))
        ∧ (m.getColVals "cpm").getD i Val.null = .num (tq / (if rq = 0 then 1 else rq)) := by
  by_cases hg : (dfs.finance.isEmpty || !dfs.finance.hasCol "clean_id") = true
  · rw [run_logic_eq_guard hg, Prod.mk.injEq] at h
    obtain ⟨h1, _⟩ := h
    have hm : m = emptyDF := (Except.ok.inj h1).symm
    subst hm
    constructor
    · rw [guard_true_keys hg]
      rfl
    · intro i hi
      simp [emptyDF] at hi
  · have hhas : dfs.finance.hasCol "clean_id" = true := by
      rcases hb : dfs.finance.hasCol "clean_id"
      · exfalso
        apply hg
        rw [hb]
        simp
      · rfl
    rw [run_logic_eq_main hg, Prod.mk.injEq] at h
    obtain ⟨hcomp, _⟩ := h
    obtain ⟨hMw, hMkeys, hMcases, hMtr, hMod, hMrm, hestnm, hneqnm, hpay1⟩ :=
      masterOf_facts dfs hwf hhas
    obtain ⟨oi, ti, ri, hoo, hot, hor, hres⟩ := computeCols_ok_cases hcomp
    have hodmem : "odometer" ∈ (masterOf dfs).cols := colIdxAux_some_mem hoo
    obtain ⟨hEc, _, _, _, _⟩ :=
      estResaleCols_facts (masterOf dfs) oi hMw hestnm hneqnm hpay1
    have htrmem : "total_repairs" ∈ (masterOf dfs).cols := by
      have hx : "total_repairs" ∈ (estResaleCols (masterOf dfs) oi).cols :=
        colIdxAux_some_mem hot
      rw [hEc] at hx
      rcases List.mem_append.mp hx with hx' | hx'
      · rcases List.mem_append.mp hx' with hx'' | hx''
        · exact hx''
        · simp at hx''
      · simp at hx'
    have hrmmem : "recent_miles" ∈ (masterOf dfs).cols := by
      have hx : "recent_miles" ∈ (estResaleCols (masterOf dfs) oi).cols :=
        colIdxAux_some_mem hor
      rw [hEc] at hx
      rcases List.mem_append.mp hx with hx' | hx'
      · rcases List.mem_append.mp hx' with hx'' | hx''
        · exact hx''
        · simp at hx''
      · simp at hx'
    have hfull : (masterOf dfs).cols = ["clean_id", "payoff_balance", "make", "model", "year",
        "total_repairs", "odometer", "recent_miles"] := by
      rcases hMcases with hc | hc | hc | hc
      · exact hc
      · exact absurd htrmem hc
      · exact absurd hodmem hc
      · exact absurd hrmmem hc
    obtain ⟨hkeys, htr, hod, hrm, hest, hcpm, hlen⟩ := computeCols_ok_shape hMw hfull hcomp
    refine ⟨by rw [hkeys, hMkeys], ?_⟩
    intro i hi
    have hi' : i < (masterOf dfs).rows.length := by rw [← hlen]; exact hi
    have hMtrIdx : (masterOf dfs).colIdx "total_repairs" = some 5 := by
      rw [DF.colIdx, hfull]
      decide
    have hModIdx : (masterOf dfs).colIdx "odometer" = some 6 := by
      rw [DF.colIdx, hfull]
      decide
    have hMrmIdx : (masterOf dfs).colIdx "recent_miles" = some 7 := by
      rw [DF.colIdx, hfull]
      decide
    have hit : i < ((masterOf dfs).getColVals "total_repairs").length := by
      rw [getColVals_length hMtrIdx]
      exact hi'
    have hio : i < ((masterOf dfs).getColVals "odometer").length := by
      rw [getColVals_length hModIdx]
      exact hi'
    have hir : i < ((masterOf dfs).getColVals "recent_miles").length := by
      rw [getColVals_length hMrmIdx]
      exact hi'
    obtain ⟨tq, htq⟩ := hMtr htrmem _ (getD_mem_of_lt Val.null _ i hit)
    obtain ⟨oq, hoq⟩ := hMod hodmem _ (getD_mem_of_lt Val.null _ i hio)
    obtain ⟨rq, hrq⟩ := hMrm hrmmem _ (getD_mem_of_lt Val.null _ i hir)
    refine ⟨tq, oq, rq, ?_, ?_, ?_, ?_, ?_⟩
    · rw [htr]
      exact htq
    · rw [hod]
      exact hoq
    · rw [hrm]
      exact hrq
    · rw [hest, getD_map_of_lt _ Val.null Val.null _ i hio, hoq]
      simp [valMul, valSub, clipLow]
    · rw [hcpm, getD_zipWith_of_lt _ Val.null Val.null Val.null _ _ i hit hir, htq, hrq]
      by_cases hrq0 : rq = 0
      · subst hrq0
        simp [replace0, valDiv]
      · have hne : Val.num rq ≠ Val.num 0 := by
          intro hh
          exact hrq0 (Val.num.inj hh)
        rw [replace0, if_neg hne]
        simp [valDiv, hrq0]

/-! ### Idempotence lemmas -/

theorem zipWith_absorb {α β : Type _} (f g : α → β → α) :
    ∀ (l1 : List α) (l2 : List β), (∀ a ∈ l1, ∀ b ∈ l2, g (f a b) b = f a b) →
      List.zipWith g (List.zipWith f l1 l2) l2 = List.zipWith f l1 l2 := by
  intro l1
  induction l1 with
  | nil => intro l2 _; simp
  | cons a as ih =>
    intro l2 h
    cases l2 with
    | nil => simp
    | cons b bs =>
      simp only [List.zipWith_cons_cons, List.cons.injEq]
      refine ⟨h a (by simp) b (by simp), ?_⟩
      exact ih bs (fun x hx y hy => h x (by simp [hx]) y (by simp [hy]))

theorem set_append_len {α : Type _} : ∀ (l : List α) (b b' : α),
    (l ++ [b]).set l.length b' = l ++ [b'] := by
  intro l
  induction l with
  | nil => intro b b'; rfl
  | cons x xs ih =>
    intro b b'
    simp only [List.cons_append, List.length_cons, List.set_cons_succ, List.cons.injEq, true_and]
    exact ih b b'

theorem find?_append_sing {α : Type _} (p : α → Bool) (a : α) (ha : p a = false) :
    ∀ (l : List α), List.find? p (l ++ [a]) = List.find? p l := by
  intro l
  induction l with
  | nil => simp [List.find?, ha]
  | cons x xs ih =>
    simp only [List.cons_append, List.find?]
    cases p x <;> simp [ih]

theorem setCol_setCol_self {df : DF} {c : String} {vs : List Val} (hwf : df.Wf)
    (_hlen : vs.length = df.rows.length) :
    (df.setCol c vs).setCol c vs = df.setCol c vs := by
  cases hc : df.colIdx c with
  | some i =>
    have hi : i < df.cols.length := colIdxAux_lt hc
    rw [setCol_eq_some hc]
    have hc2 : (⟨df.cols, List.zipWith (fun r v => r.set i v) df.rows vs⟩ : DF).colIdx c
        = some i := hc
    rw [setCol_eq_some hc2]
    simp only [DF.mk.injEq, true_and]
    exact zipWith_absorb _ _ df.rows vs (fun a _ b _ => List.set_set b b a i)
  | none =>
    rw [setCol_eq_none hc]
    have hc2 : (⟨df.cols ++ [c], List.zipWith (fun r v => r ++ [v]) df.rows vs⟩ : DF).colIdx c
        = some df.cols.length := by
      rw [DF.colIdx, colIdxAux_append_right (colIdxAux_eq_none.mp hc)]
      simp [colIdxAux]
    rw [setCol_eq_some hc2]
    simp only [DF.mk.injEq, true_and]
    apply zipWith_absorb
    intro a ha b _
    have hla : a.length = df.cols.length := hwf a ha
    rw [← hla, set_append_len]

theorem guard_false_parts {fin : DF}
    (hg : ¬(fin.isEmpty || !fin.hasCol "clean_id") = true) :
    fin.isEmpty = false ∧ fin.hasCol "clean_id" = true := by
  constructor
  · rcases hb : fin.isEmpty
    · rfl
    · exfalso
      apply hg
      rw [hb]
      rfl
  · rcases hb : fin.hasCol "clean_id"
    · exfalso
      apply hg
      rw [hb]
      simp
    · rfl

theorem addPayoff_idem {fin : DF} (hwf : fin.Wf) : addPayoff (addPayoff fin) = addPayoff fin := by
  obtain ⟨hPw, hPl, hPne, hPpb, hPc⟩ := addPayoff_facts fin hwf
  have hfind2 : (addPayoff fin).cols.find? payColPred = fin.cols.find? payColPred := by
    rcases hPc with hc | hc <;> rw [hc]
    exact find?_append_sing payColPred "payoff_balance" (by decide) fin.cols
  rcases hfind : fin.cols.find? payColPred with _ | pc
  · have ha := addPayoff_eq_none hfind
    have hlen : (List.replicate fin.rows.length (Val.num 0)).length = fin.rows.length := by simp
    have ha2 := addPayoff_eq_none (hfind2.trans hfind)
    rw [ha2, hPl, ha, setCol_setCol_self hwf hlen]
  · have hpc : payColPred pc = true := List.find?_some hfind
    have hpcne : pc ≠ "payoff_balance" := by
      intro hh
      rw [hh] at hpc
      exact Bool.noConfusion ((by decide : payColPred "payoff_balance" = false).symm.trans hpc)
    have ha := addPayoff_eq_some hfind
    have hpcmem : pc ∈ fin.cols := List.mem_of_find?_eq_some hfind
    rcases colIdxAux_mem hpcmem with ⟨i, hi⟩
    have hlen : ((fin.getColVals pc).map (fun v => Val.num (toNumD v * 12))).length
        = fin.rows.length := by
      rw [List.length_map]
      exact getColVals_length hi
    have ha2 := addPayoff_eq_some (hfind2.trans hfind)
    rw [ha2, hPne pc hpcne, ha, setCol_setCol_self hwf hlen]

/-! ### Claim theorems -/

/-- C1: the claim says the engine never raises when a non-finance source is
empty or unresolvable, and instead defaults the derived field to zero. The
code disagrees: with a well-formed finance roster and all three other sources
empty, the master table never receives an odometer column, and the lookup at
the resale formula raises a KeyError naming odometer. -/
theorem c1_missing_source_raises_keyerror :
    (run_logic c1Input).1 = .error "odometer" ∧ c1Input.repairs.isEmpty = true
      ∧ c1Input.odometer.isEmpty = true ∧ c1Input.distance.isEmpty = true
      ∧ c1Input.finance.isEmpty = false ∧ c1Input.finance.hasCol "clean_id" = true := by
  decide

/-- C2: when the canonical keys of the finance roster are pairwise distinct
(and are genuine text keys, as the loader always produces), every roster
vehicle owns exactly one master record and no master record carries a key
outside the roster, however many matching rows the other sources hold. -/
theorem c2_roster_exactly_once (dfs : Sources) (m : DF) (s2 : Sources)
    (hwf : dfs.finance.Wf) (h : run_logic dfs = (.ok m, s2))
    (hstr : ∀ v ∈ dfs.finance.getColVals "clean_id", v.isStr = true)
    (hnd : (dfs.finance.getColVals "clean_id").Nodup) :
    (∀ k ∈ dfs.finance.getColVals "clean_id", (m.getColVals "clean_id").count k = 1)
    ∧ (∀ k, k ∉ dfs.finance.getColVals "clean_id" → (m.getColVals "clean_id").count k = 0) := by
  obtain ⟨hkeys, _⟩ := run_logic_ok_facts hwf h
  have hid : (dfs.finance.getColVals "clean_id").map fillVal
      = dfs.finance.getColVals "clean_id" := by
    have hptw : ∀ v ∈ dfs.finance.getColVals "clean_id", fillVal v = v := by
      intro v hv
      rcases v with s | q | _
      · rfl
      · rfl
      · exact absurd (hstr _ hv) (by simp [Val.isStr])
    rw [List.map_congr_left hptw]
    simp
  rw [hkeys, hid]
  constructor
  · intro k hk
    exact List.count_eq_one_of_mem hnd hk
  · intro k hk
    exact List.count_eq_zero_of_not_mem hk

unseal Rat.mul Rat.inv Rat.add Rat.sub Rat.ofScientific in
/-- Witness for C2 at the example input: the single roster key appears in
exactly one master record, and a foreign key in none. -/
theorem c2_roster_exactly_once_inst :
    (exMaster.getColVals "clean_id").count (.str "77") = 1
    ∧ (exMaster.getColVals "clean_id").count (.str "88") = 0 := by
  have hc := c2_roster_exactly_once exInput exMaster exPost (by decide) (by decide)
    (by decide) (by decide)
  exact ⟨hc.1 (.str "77") (by decide), hc.2 (.str "88") (by decide)⟩

/-- C3: Rule A fires whenever its condition holds, in particular also when
Rule B fires at the same time; Rule B decides only when A does not, Rule C
only when neither does, and the default without any rule is INSPECT. -/
theorem c3_classifier_priority :
    ∀ od cpm neq rm : ℚ,
      (((od > 500000 ∨ cpm > 0.15) ∧ neq > 0) → (cpm < 0.12 ∧ rm > 2000) →
        (get_rec od cpm neq rm).1 = "SELL")
      ∧ (((od > 500000 ∨ cpm > 0.15) ∧ neq > 0) → (get_rec od cpm neq rm).1 = "SELL")
      ∧ (¬((od > 500000 ∨ cpm > 0.15) ∧ neq > 0) → (cpm < 0.12 ∧ rm > 2000) →
          (get_rec od cpm neq rm).1 = "KEEP")
      ∧ (¬((od > 500000 ∨ cpm > 0.15) ∧ neq > 0) → ¬(cpm < 0.12 ∧ rm > 2000) →
          (rm < 1000 ∧ neq < 0) → (get_rec od cpm neq rm).1 = "INSPECT")
      ∧ (¬((od > 500000 ∨ cpm > 0.15) ∧ neq > 0) → ¬(cpm < 0.12 ∧ rm > 2000) →
          ¬(rm < 1000 ∧ neq < 0) → (get_rec od cpm neq rm).1 = "INSPECT") := by
  intro od cpm neq rm
  refine ⟨?_, ?_, ?_, ?_, ?_⟩
  · intro h1 _
    simp only [get_rec]
    rw [if_pos h1]
  · intro h1
    simp only [get_rec]
    rw [if_pos h1]
  · intro h1 h2
    simp only [get_rec]
    rw [if_neg h1, if_pos h2]
  · intro h1 h2 h3
    simp only [get_rec]
    rw [if_neg h1, if_neg h2, if_pos h3]
  · intro h1 h2 h3
    simp only [get_rec]
    rw [if_neg h1, if_neg h2, if_neg h3]

unseal Rat.mul Rat.inv Rat.add Rat.sub Rat.ofScientific in
/-- Witness for C3: a record satisfying Rule A and Rule B at once is SELL. -/
theorem c3_classifier_priority_inst :
    (((600000 : ℚ) > 500000 ∨ (1 / 10 : ℚ) > 0.15) ∧ (5 : ℚ) > 0)
    ∧ ((1 / 10 : ℚ) < 0.12 ∧ (3000 : ℚ) > 2000)
    ∧ (get_rec 600000 (1 / 10) 5 3000).1 = "SELL" :=
  ⟨by decide, by decide,
    (c3_classifier_priority 600000 (1 / 10) 5 3000).1 (by decide) (by decide)⟩

/-- C4: every master record carries a numeric odometer, and its resale
estimate is exactly the depreciation formula clipped at the salvage floor,
hence at least 10000. -/
theorem c4_est_resale_formula (dfs : Sources) (m : DF) (s2 : Sources)
    (hwf : dfs.finance.Wf) (h : run_logic dfs = (.ok m, s2))
    (i : Nat) (hi : i < m.rows.length) :
    ∃ oq : ℚ, (m.getColVals "odometer").getD i Val.null = .num oq
      ∧ (m.getColVals "est_resale").getD i Val.null
          = .num (Max.max 10000 (65000 - oq * (5 / 100)))
      ∧ (10000 : ℚ) ≤ Max.max 10000 (65000 - oq * (5 / 100)) := by
  obtain ⟨_, hnum⟩ := run_logic_ok_facts hwf h
  obtain ⟨tq, oq, rq, _, hoq, _, hest, _⟩ := hnum i hi
  exact ⟨oq, hoq, hest, le_max_left _ _⟩

unseal Rat.mul Rat.inv Rat.add Rat.sub Rat.ofScientific in
/-- Witness for C4 at the example input. -/
theorem c4_est_resale_formula_inst :
    ∃ oq : ℚ, (exMaster.getColVals "odometer").getD 0 Val.null = .num oq
      ∧ (exMaster.getColVals "est_resale").getD 0 Val.null
          = .num (Max.max 10000 (65000 - oq * (5 / 100)))
      ∧ (10000 : ℚ) ≤ Max.max 10000 (65000 - oq * (5 / 100)) :=
  c4_est_resale_formula exInput exMaster exPost (by decide) (by decide) 0 (by decide)

/-- C5: every master record divides its repair total by its recent mileage
with zero replaced by one, so the divisor is never zero and a record with no
recent mileage reports its repair total as its cost per mile. -/
theorem c5_cpm_substitution (dfs : Sources) (m : DF) (s2 : Sources)
    (hwf : dfs.finance.Wf) (h : run_logic dfs = (.ok m, s2))
    (i : Nat) (hi : i < m.rows.length) :
    ∃ tq rq : ℚ, (m.getColVals "total_repairs").getD i Val.null = .num tq
      ∧ (m.getColVals "recent_miles").getD i Val.null = .num rq
      ∧ (m.getColVals "cpm").getD i Val.null = .num (tq / (if rq = 0 then 1 else rq))
      ∧ (if rq = 0 then (1 : ℚ) else rq) ≠ 0
      ∧ (rq = 0 → (m.getColVals "cpm").getD i Val.null = .num tq) := by
  obtain ⟨_, hnum⟩ := run_logic_ok_facts hwf h
  obtain ⟨tq, oq, rq, htq, _, hrq, _, hcpm⟩ := hnum i hi
  refine ⟨tq, rq, htq, hrq, hcpm, ?_, ?_⟩
  · by_cases hrq0 : rq = 0
    · rw [if_pos hrq0]
      exact one_ne_zero
    · rw [if_neg hrq0]
      exact hrq0
  · intro hrq0
    rw [hcpm, if_pos hrq0]
    norm_num

unseal Rat.mul Rat.inv Rat.add Rat.sub Rat.ofScientific in
/-- Witness for C5 at the example input. -/
theorem c5_cpm_substitution_inst :
    ∃ tq rq : ℚ, (exMaster.getColVals "total_repairs").getD 0 Val.null = .num tq
      ∧ (exMaster.getColVals "recent_miles").getD 0 Val.null = .num rq
      ∧ (exMaster.getColVals "cpm").getD 0 Val.null = .num (tq / (if rq = 0 then 1 else rq))
      ∧ (if rq = 0 then (1 : ℚ) else rq) ≠ 0
      ∧ (rq = 0 → (exMaster.getColVals "cpm").getD 0 Val.null = .num tq) :=
  c5_cpm_substitution exInput exMaster exPost (by decide) (by decide) 0 (by decide)

/-- C6 counterexample: the engine does not leave its inputs unchanged; on a
minimal roster it writes the payoff-balance column onto the finance table. -/
theorem c6_run_logic_mutates_finance_cex :
    (run_logic cexC6src).2.finance ≠ cexC6src.finance := by
  decide

/-- C6 as amended: the engine leaves the repairs, odometer, and distance
tables unchanged, and changes the finance table at most by writing its
payoff-balance column; with that one exception the inputs are untouched. -/
theorem c6_frame_effect_amended (dfs : Sources) :
    (run_logic dfs).2.repairs = dfs.repairs
    ∧ (run_logic dfs).2.odometer = dfs.odometer
    ∧ (run_logic dfs).2.distance = dfs.distance
    ∧ ((run_logic dfs).2.finance = dfs.finance
        ∨ ∃ vs, (run_logic dfs).2.finance = dfs.finance.setCol "payoff_balance" vs) := by
  by_cases hg : (dfs.finance.isEmpty || !dfs.finance.hasCol "clean_id") = true
  · rw [run_logic_eq_guard hg]
    exact ⟨rfl, rfl, rfl, Or.inl rfl⟩
  · rw [run_logic_eq_main hg]
    refine ⟨rfl, rfl, rfl, Or.inr ?_⟩
    rcases hfind : dfs.finance.cols.find? payColPred with _ | pc
    · exact ⟨_, addPayoff_eq_none hfind⟩
    · exact ⟨_, addPayoff_eq_some hfind⟩

/-- C7: running the engine a second time on the state the first run leaves
behind reproduces the first result exactly: the payoff-balance write is
idempotent, so the decision table and the final state are unchanged. -/
theorem c7_pipeline_idempotent (dfs : Sources) (hwf : dfs.finance.Wf) :
    run_logic ((run_logic dfs).2) = run_logic dfs := by
  by_cases hg : (dfs.finance.isEmpty || !dfs.finance.hasCol "clean_id") = true
  · rw [run_logic_eq_guard hg]
    exact run_logic_eq_guard hg
  · obtain ⟨hie, hhc⟩ := guard_false_parts hg
    obtain ⟨hPw, hPl, hPne, hPpb, hPc⟩ := addPayoff_facts dfs.finance hwf
    rw [run_logic_eq_main hg]
    show run_logic { dfs with finance := addPayoff dfs.finance }
        = (computeCols (masterOf dfs), { dfs with finance := addPayoff dfs.finance })
    have hg1 : ¬(({ dfs with finance := addPayoff dfs.finance } : Sources).finance.isEmpty
        || !({ dfs with finance := addPayoff dfs.finance } : Sources).finance.hasCol
            "clean_id") = true := by
      show ¬((addPayoff dfs.finance).isEmpty
        || !(addPayoff dfs.finance).hasCol "clean_id") = true
      intro hcon
      rw [Bool.or_eq_true] at hcon
      rcases hcon with hcon | hcon
      · rw [DF.isEmpty, Bool.or_eq_true] at hcon
        rcases hcon with hcon | hcon
        · have h0 : dfs.finance.rows = [] := by
            apply List.length_eq_zero.mp
            rw [← hPl, List.isEmpty_iff.mp hcon]
            rfl
          have hT : dfs.finance.isEmpty = true := by
            rw [DF.isEmpty, h0]
            rfl
          rw [hT] at hie
          exact Bool.noConfusion hie
        · rw [List.isEmpty_iff.mp hcon] at hPpb
          simp at hPpb
      · have h3 : (addPayoff dfs.finance).hasCol "clean_id" = true := by
          rw [DF.hasCol_iff]
          have hm : "clean_id" ∈ dfs.finance.cols := DF.hasCol_iff.mp hhc
          rcases hPc with hc | hc <;> rw [hc]
          · exact hm
          · exact List.mem_append_left _ hm
        rw [h3] at hcon
        exact absurd hcon (by decide)
    rw [run_logic_eq_main hg1]
    have hM : masterOf { dfs with finance := addPayoff dfs.finance } = masterOf dfs := by
      show DF.fillna0 (mergeSource (mergeSource (mergeSource
          (buildBase (addPayoff (addPayoff dfs.finance))) dfs.repairs "amount" "total_repairs"
            .sum)
          dfs.odometer "odo" "odometer" .max)
          dfs.distance "dist" "recent_miles" .sum) = masterOf dfs
      rw [addPayoff_idem hwf]
      rfl
    rw [hM]
    show (computeCols (masterOf dfs),
        ({ dfs with finance := addPayoff (addPayoff dfs.finance) } : Sources))
      = (computeCols (masterOf dfs), { dfs with finance := addPayoff dfs.finance })
    rw [addPayoff_idem hwf]

unseal Rat.mul Rat.inv Rat.add Rat.sub Rat.ofScientific in
/-- Witness for C7 at the example input. -/
theorem c7_pipeline_idempotent_inst :
    exInput.finance.Wf ∧ run_logic ((run_logic exInput).2) = run_logic exInput :=
  ⟨by decide, c7_pipeline_idempotent exInput (by decide)⟩

unseal Rat.mul Rat.inv Rat.add Rat.sub Rat.ofScientific in
/-- C8: every loaded table with a recognized identifier column gains a
canonical key equal to that column rendered as text with every SPOT- prefix
removed and surrounding whitespace stripped; keys written as SPOT-1001,
1001 with spaces, and 1001 all normalize to 1001, so rows using the three
spellings join into the same master record. -/
theorem c8_canonical_key :
    (∀ (df : DF) (idc : String), df.Wf → df.cols.find? idColPred = some idc →
        (addCleanId df).getColVals "clean_id"
          = (df.getColVals idc).map
              (fun v => Val.str (trimStr (replaceStr v.toStr "SPOT-" ""))))
    ∧ clean_id_val (.str "SPOT-1001") = .str "1001"
    ∧ clean_id_val (.str " 1001 ") = .str "1001"
    ∧ c8Out.rows.length = 1
    ∧ c8Out.getColVals "clean_id" = [.str "1001"]
    ∧ c8Out.getColVals "total_repairs" = [.num 50] := by
  refine ⟨?_, by decide, by decide, by decide, by decide, by decide⟩
  intro df idc hwfd hfind
  have ha : addCleanId df = df.setCol "clean_id" ((df.getColVals idc).map clean_id_val) := by
    unfold addCleanId
    rw [hfind]
  have hmem : idc ∈ df.cols := List.mem_of_find?_eq_some hfind
  rcases colIdxAux_mem hmem with ⟨i, hi⟩
  have hlen : ((df.getColVals idc).map clean_id_val).length = df.rows.length := by
    rw [List.length_map]
    exact getColVals_length hi
  rw [ha, getColVals_setCol_self hwfd hlen]
  rfl

/-- Witness for C8: the identifier column of the raw finance table is found
and projected into the canonical key. -/
theorem c8_canonical_key_inst :
    (addCleanId c8finRaw).getColVals "clean_id"
      = (c8finRaw.getColVals "unit_id").map
          (fun v => Val.str (trimStr (replaceStr v.toStr "SPOT-" ""))) :=
  c8_canonical_key.1 c8finRaw "unit_id" (by decide) (by decide)

/-- C9: when the finance table is empty or lacks the canonical key column,
the engine returns an empty decision table without raising and leaves every
source unchanged. -/
theorem c9_empty_roster_empty_output (dfs : Sources)
    (h : dfs.finance.isEmpty = true ∨ dfs.finance.hasCol "clean_id" = false) :
    run_logic dfs = (.ok emptyDF, dfs) := by
  apply run_logic_eq_guard
  rcases h with h | h <;> simp [h]

/-- Witness for C9: a finance table without a canonical key column. -/
theorem c9_empty_roster_empty_output_inst :
    c9Input.finance.hasCol "clean_id" = false
    ∧ run_logic c9Input = (.ok emptyDF, c9Input) :=
  ⟨by decide, c9_empty_roster_empty_output c9Input (Or.inr (by decide))⟩

/-- C10: the explicit third branch of the classifier is redundant: the
classifier agrees everywhere with the two-rule version whose default is
INSPECT, and the outcome is INSPECT exactly when neither Rule A nor Rule B
holds, whether or not the Rule C condition does. -/
theorem c10_rule_c_redundant :
    ∀ od cpm neq rm : ℚ,
      (get_rec od cpm neq rm).1 = get_rec_simple od cpm neq rm
      ∧ ((get_rec od cpm neq rm).1 = "INSPECT"
          ↔ ¬((od > 500000 ∨ cpm > 0.15) ∧ neq > 0) ∧ ¬(cpm < 0.12 ∧ rm > 2000)) := by
  intro od cpm neq rm
  by_cases hA : (od > 500000 ∨ cpm > 0.15) ∧ neq > 0
  · constructor
    · simp only [get_rec, get_rec_simple]
      rw [if_pos hA, if_pos hA]
    · simp only [get_rec]
      rw [if_pos hA]
      exact iff_of_false (by decide) (fun hc => hc.1 hA)
  · by_cases hB : cpm < 0.12 ∧ rm > 2000
    · constructor
      · simp only [get_rec, get_rec_simple]
        rw [if_neg hA, if_neg hA, if_pos hB, if_pos hB]
      · simp only [get_rec]
        rw [if_neg hA, if_pos hB]
        exact iff_of_false (by decide) (fun hc => hc.2 hB)
    · by_cases hC : rm < 1000 ∧ neq < 0
      · constructor
        · simp only [get_rec, get_rec_simple]
          rw [if_neg hA, if_neg hA, if_neg hB, if_neg hB, if_pos hC]
        · simp only [get_rec]
          rw [if_neg hA, if_neg hB, if_pos hC]
          exact iff_of_true rfl ⟨hA, hB⟩
      · constructor
        · simp only [get_rec, get_rec_simple]
          rw [if_neg hA, if_neg hA, if_neg hB, if_neg hB, if_neg hC]
        · simp only [get_rec]
          rw [if_neg hA, if_neg hB, if_neg hC]
          exact iff_of_true rfl ⟨hA, hB⟩

/-- Witness for C10 at a concrete record: the two classifiers agree. -/
theorem c10_rule_c_redundant_inst :
    (get_rec 600000 (1 / 10) 5 3000).1 = get_rec_simple 600000 (1 / 10) 5 3000 :=
  (c10_rule_c_redundant 600000 (1 / 10) 5 3000).1
